import Mathlib

/-!
Verification development for the PostMortem collection compiler
(Postman-collection → Mocha/Supertest test generator).

The JavaScript/TypeScript sources are embedded shallowly: strings are
`List Char`, the ordered regex-rewrite engine of
`src/converters/test-converter.js` is a list of (matcher, template)
rules applied in one left-to-right pass each, and the platform
primitives the code calls (`String.prototype.replace` with the concrete
literal regexes, `new URL`, `JSON.parse`, `JSON.stringify`,
`_.kebabCase`) are modelled as executable Lean functions on the input
domain the compiler feeds them.
-/

set_option maxRecDepth 100000

namespace PostMortem

/-- Strings are modelled as lists of characters. -/
abbrev Str := List Char

/-- Conversion from a Lean string literal to the model's string type. -/
def str (s : String) : Str := s.data

/-- The double-quote character. -/
def quoteChar : Char := Char.ofNat 34

/-- The single-quote (apostrophe) character. -/
def aposChar : Char := Char.ofNat 39

/-- The backtick character. -/
def backtickChar : Char := Char.ofNat 96

/-- The backslash character. -/
def backslashChar : Char := Char.ofNat 92

/-- `leadsWith p s` is true when `p` is an initial segment of `s`. -/
def leadsWith : Str → Str → Bool
  | [], _ => true
  | _ :: _, [] => false
  | a :: as, b :: bs => (a == b) && leadsWith as bs

/-- `hasSub p s` is true when `p` occurs contiguously inside `s`. -/
def hasSub (p : Str) : Str → Bool
  | [] => leadsWith p []
  | c :: cs => leadsWith p (c :: cs) || hasSub p cs

theorem leadsWith_append (p t : Str) : leadsWith p (p ++ t) = true := by
  induction p with
  | nil => rfl
  | cons a as ih => simp [leadsWith, ih]

theorem hasSub_self_append (p b : Str) (hp : p ≠ []) :
    hasSub p (p ++ b) = true := by
  cases p with
  | nil => exact absurd rfl hp
  | cons x xs =>
    have h := leadsWith_append (x :: xs) b
    simp only [List.cons_append] at h
    simp [hasSub, h]

theorem hasSub_append (p a b : Str) (hp : p ≠ []) :
    hasSub p (a ++ p ++ b) = true := by
  induction a with
  | nil => simpa using hasSub_self_append p b hp
  | cons c cs ih =>
    have : (c :: cs) ++ p ++ b = c :: (cs ++ p ++ b) := by simp
    rw [this]
    simp only [hasSub]
    rw [ih]
    simp

/-- One global single-character regex replacement,
`s.replace(/c/g, repl)`, as used by `escapeForJs`. -/
def charReplace (t : Char) (repl : Str) (s : Str) : Str :=
  s.flatMap (fun c => if c = t then repl else [c])

/-- `escapeForJs` from `src/converters/test-generator.ts` (lines 48-58):
eight global single-character replacements applied in source order —
backslash first, then the two quotes, then the control characters
`\n`, `\r`, `\t`, then `$` and the backtick. -/
def escapeForJs (s : Str) : Str :=
  charReplace backtickChar [backslashChar, backtickChar]
    (charReplace '$' [backslashChar, '$']
      (charReplace '\t' [backslashChar, 't']
        (charReplace '\r' [backslashChar, 'r']
          (charReplace '\n' [backslashChar, 'n']
            (charReplace quoteChar [backslashChar, quoteChar]
              (charReplace aposChar [backslashChar, aposChar]
                (charReplace backslashChar [backslashChar, backslashChar] s)))))))

/-- The per-character effect the eight passes of `escapeForJs` add up to. -/
def escChar (c : Char) : Str :=
  if c = backslashChar then [backslashChar, backslashChar]
  else if c = aposChar then [backslashChar, aposChar]
  else if c = quoteChar then [backslashChar, quoteChar]
  else if c = '\n' then [backslashChar, 'n']
  else if c = '\r' then [backslashChar, 'r']
  else if c = '\t' then [backslashChar, 't']
  else if c = '$' then [backslashChar, '$']
  else if c = backtickChar then [backslashChar, backtickChar]
  else [c]

theorem charReplace_append (t : Char) (r a b : Str) :
    charReplace t r (a ++ b) = charReplace t r a ++ charReplace t r b := by
  simp [charReplace]

theorem escapeForJs_append (a b : Str) :
    escapeForJs (a ++ b) = escapeForJs a ++ escapeForJs b := by
  simp [escapeForJs, charReplace_append]

theorem escapeForJs_single (c : Char) : escapeForJs [c] = escChar c := by
  by_cases h1 : c = backslashChar
  · subst h1; decide
  by_cases h2 : c = aposChar
  · subst h2; decide
  by_cases h3 : c = quoteChar
  · subst h3; decide
  by_cases h4 : c = '\n'
  · subst h4; decide
  by_cases h5 : c = '\r'
  · subst h5; decide
  by_cases h6 : c = '\t'
  · subst h6; decide
  by_cases h7 : c = '$'
  · subst h7; decide
  by_cases h8 : c = backtickChar
  · subst h8; decide
  simp [escapeForJs, charReplace, escChar, h1, h2, h3, h4, h5, h6, h7, h8]

theorem escapeForJs_eq_flatMap (s : Str) :
    escapeForJs s = s.flatMap escChar := by
  induction s with
  | nil => rfl
  | cons c cs ih =>
    have h1 : (c :: cs) = [c] ++ cs := rfl
    rw [h1, escapeForJs_append, List.flatMap_append, ← ih, escapeForJs_single]
    simp

/-- The inverse of a single escape pair: what a JavaScript single-quoted
string literal turns `\\c` back into. -/
def unescChar (c : Char) : Char :=
  if c = 'n' then '\n'
  else if c = 'r' then '\r'
  else if c = 't' then '\t'
  else c

/-- Decoder for a JavaScript single-quoted string literal body restricted
to the escape pairs `escapeForJs` can produce. -/
def unescapeJs : Str → Str
  | [] => []
  | [c] => if c = backslashChar then [] else [c]
  | c :: d :: rest =>
    if c = backslashChar then unescChar d :: unescapeJs rest
    else c :: unescapeJs (d :: rest)

theorem unescapeJs_cons_backslash (d : Char) (rest : Str) :
    unescapeJs (backslashChar :: d :: rest) = unescChar d :: unescapeJs rest := by
  simp [unescapeJs]

theorem unescapeJs_cons_other (c : Char) (h : c ≠ backslashChar) (rest : Str) :
    unescapeJs (c :: rest) = c :: unescapeJs rest := by
  cases rest with
  | nil => simp [unescapeJs, h]
  | cons d rest2 => simp [unescapeJs, h]

theorem unescapeJs_pair {c d : Char} (rest : Str)
    (h : escChar c = [backslashChar, d]) (h2 : unescChar d = c) :
    unescapeJs (escChar c ++ rest) = c :: unescapeJs rest := by
  rw [h]
  simp only [List.cons_append, List.nil_append]
  rw [unescapeJs_cons_backslash, h2]

theorem unescapeJs_escChar (c : Char) (rest : Str) :
    unescapeJs (escChar c ++ rest) = c :: unescapeJs rest := by
  by_cases h1 : c = backslashChar
  · subst h1; exact unescapeJs_pair (d := backslashChar) rest (by decide) (by decide)
  by_cases h2 : c = aposChar
  · subst h2; exact unescapeJs_pair (d := aposChar) rest (by decide) (by decide)
  by_cases h3 : c = quoteChar
  · subst h3; exact unescapeJs_pair (d := quoteChar) rest (by decide) (by decide)
  by_cases h4 : c = '\n'
  · subst h4; exact unescapeJs_pair (d := 'n') rest (by decide) (by decide)
  by_cases h5 : c = '\r'
  · subst h5; exact unescapeJs_pair (d := 'r') rest (by decide) (by decide)
  by_cases h6 : c = '\t'
  · subst h6; exact unescapeJs_pair (d := 't') rest (by decide) (by decide)
  by_cases h7 : c = '$'
  · subst h7; exact unescapeJs_pair (d := '$') rest (by decide) (by decide)
  by_cases h8 : c = backtickChar
  · subst h8; exact unescapeJs_pair (d := backtickChar) rest (by decide) (by decide)
  have hc : escChar c = [c] := by
    simp [escChar, h1, h2, h3, h4, h5, h6, h7, h8]
  rw [hc]
  simp only [List.cons_append, List.nil_append]
  exact unescapeJs_cons_other c h1 rest

/-- Decoding inverts `escapeForJs`: because the backslash rule runs
first, no character is double-escaped and the original string is
recovered exactly. -/
theorem unescapeJs_escapeForJs (s : Str) : unescapeJs (escapeForJs s) = s := by
  rw [escapeForJs_eq_flatMap]
  induction s with
  | nil => rfl
  | cons c cs ih =>
    rw [List.flatMap_cons, unescapeJs_escChar, ih]

/-- `escapeForJs` is injective (a consequence of the round-trip). -/
theorem escapeForJs_injective {a b : Str} (h : escapeForJs a = escapeForJs b) :
    a = b := by
  have := congrArg unescapeJs h
  rwa [unescapeJs_escapeForJs, unescapeJs_escapeForJs] at this

/-! ## The ordered rewrite engine of `src/converters/test-converter.js`

Each conversion entry is a concrete JavaScript regex together with a
replacement template.  Every pattern in the source starts with a literal
character and all its character classes (`\s`, `\d`, `[^"']`) are
disjoint from the literal that follows them, so the greedy regex match is
reproduced exactly by straight-line combinators without backtracking.
`String.prototype.replace` with a `/g` regex is a single left-to-right
scan that, at each position, either rewrites a match and resumes after
it, or moves one character forward. -/

/-- Match a literal prefix, returning the remainder. -/
def litm : Str → Str → Option Str
  | [], s => some s
  | _ :: _, [] => none
  | a :: as, b :: bs => if a = b then litm as bs else none

/-- JavaScript's `\s` class restricted to ASCII (space and the five
control whitespace characters). -/
def isWsJS (c : Char) : Bool := c = ' ' || (9 ≤ c.toNat && c.toNat ≤ 13)

/-- Greedy `\s*`. -/
def wsSkip (s : Str) : Str := s.dropWhile isWsJS

/-- Greedy one-or-more repetition of a character class, returning the
matched run and the remainder; fails on an empty run. -/
def many1 (p : Char → Bool) (s : Str) : Option (Str × Str) :=
  match s.span p with
  | (t, rest) => if t = [] then none else some (t, rest)

/-- Match one character of a class. -/
def one (p : Char → Bool) : Str → Option Str
  | c :: rest => if p c then some rest else none
  | [] => none

/-- The `["']` class of the source regexes. -/
def isQuote (c : Char) : Bool := c = quoteChar || c = aposChar

/-- The `[^"']` class of the source regexes. -/
def notQuote (c : Char) : Bool := !(isQuote c)

/-- One conversion entry: an anchored matcher returning (capture,
remainder), and a replacement template over the capture. -/
structure Rule where
  matchAt : Str → Option (Str × Str)
  tmpl : Str → Str

/-- `/pm\.test\s*\(\s*["']([^"']+)["']/g` → `it("$1"`. -/
def rule1 : Rule where
  matchAt s := do
    let s1 ← litm (str "pm.test") s
    let s2 ← litm (str "(") (wsSkip s1)
    let s3 ← one isQuote (wsSkip s2)
    let (cap, s4) ← many1 notQuote s3
    let s5 ← one isQuote s4
    some (cap, s5)
  tmpl cap := str "it(\x22" ++ cap ++ str "\x22"

/-- `/pm\.expect\s*\(\s*pm\.response\.code\s*\)\.to\.equal\s*\(\s*(\d+)\s*\)/g`
→ `expect(response.status).to.equal($1)`. -/
def rule2 : Rule where
  matchAt s := do
    let s1 ← litm (str "pm.expect") s
    let s2 ← litm (str "(") (wsSkip s1)
    let s3 ← litm (str "pm.response.code") (wsSkip s2)
    let s4 ← litm (str ")") (wsSkip s3)
    let s5 ← litm (str ".to.equal") s4
    let s6 ← litm (str "(") (wsSkip s5)
    let (cap, s7) ← many1 Char.isDigit (wsSkip s6)
    let s8 ← litm (str ")") (wsSkip s7)
    some (cap, s8)
  tmpl cap := str "expect(response.status).to.equal(" ++ cap ++ str ")"

/-- `/pm\.response\.to\.have\.status\s*\(\s*(\d+)\s*\)/g`
→ `expect(response.status).to.equal($1)`. -/
def rule3 : Rule where
  matchAt s := do
    let s1 ← litm (str "pm.response.to.have.status") s
    let s2 ← litm (str "(") (wsSkip s1)
    let (cap, s3) ← many1 Char.isDigit (wsSkip s2)
    let s4 ← litm (str ")") (wsSkip s3)
    some (cap, s4)
  tmpl cap := str "expect(response.status).to.equal(" ++ cap ++ str ")"

/-- `/pm\.response\.json\(\)/g` → `response.body`. -/
def rule4 : Rule where
  matchAt s := do
    let s1 ← litm (str "pm.response.json()") s
    some ([], s1)
  tmpl _ := str "response.body"

/-- `/pm\.expect\s*\(\s*responseData\s*\)/g` → `expect(response.body)`. -/
def rule5 : Rule where
  matchAt s := do
    let s1 ← litm (str "pm.expect") s
    let s2 ← litm (str "(") (wsSkip s1)
    let s3 ← litm (str "responseData") (wsSkip s2)
    let s4 ← litm (str ")") (wsSkip s3)
    some ([], s4)
  tmpl _ := str "expect(response.body)"

/-- `/pm\.response\.headers\.get\s*\(\s*["']([^"']+)["']\s*\)/g`
→ `response.headers["$1".toLowerCase()]`. -/
def rule6 : Rule where
  matchAt s := do
    let s1 ← litm (str "pm.response.headers.get") s
    let s2 ← litm (str "(") (wsSkip s1)
    let s3 ← one isQuote (wsSkip s2)
    let (cap, s4) ← many1 notQuote s3
    let s5 ← one isQuote s4
    let s6 ← litm (str ")") (wsSkip s5)
    some (cap, s6)
  tmpl cap := str "response.headers[\x22" ++ cap ++ str "\x22.toLowerCase()]"

/-- `/pm\.expect/g` → `expect`. -/
def rule7 : Rule where
  matchAt s := do
    let s1 ← litm (str "pm.expect") s
    some ([], s1)
  tmpl _ := str "expect"

/-- `/pm\.response\.responseTime/g` → the inert comment marker. -/
def rule8 : Rule where
  matchAt s := do
    let s1 ← litm (str "pm.response.responseTime") s
    some ([], s1)
  tmpl _ := str "/* Response time not directly supported in Supertest */"

/-- `/const\s+responseData\s*=\s*pm\.response\.json\(\);/g`
→ `const responseData = response.body;`. -/
def rule9 : Rule where
  matchAt s := do
    let s1 ← litm (str "const") s
    let (_, s2) ← many1 isWsJS s1
    let s3 ← litm (str "responseData") s2
    let s4 ← litm (str "=") (wsSkip s3)
    let s5 ← litm (str "pm.response.json();") (wsSkip s4)
    some ([], s5)
  tmpl _ := str "const responseData = response.body;"

/-- Apply a rule's matcher at the current position and instantiate its
replacement template. -/
def applyRule (r : Rule) (s : Str) : Option (Str × Str) :=
  (r.matchAt s).map (fun p => (r.tmpl p.1, p.2))

/-- The left-to-right scan of `String.prototype.replace` with a global
regex.  Every matcher consumes at least one character (all patterns start
with a literal), so fuel equal to the input length reproduces the scan
exactly. -/
def replGo (r : Rule) : Nat → Str → Str
  | _, [] => []
  | 0, s => s
  | fuel + 1, c :: cs =>
    match applyRule r (c :: cs) with
    | some (rep, rem) => rep ++ replGo r fuel rem
    | none => c :: replGo r fuel cs

/-- `s.replace(pattern, replacement)` for one conversion entry. -/
def replaceAll (r : Rule) (s : Str) : Str := replGo r s.length s

/-- The ordered conversion table of
`TestConverter.convertPostmanTestToMocha` (test-converter.js, lines
18-68), in source order. -/
def conversions : List Rule :=
  [rule1, rule2, rule3, rule4, rule5, rule6, rule7, rule8, rule9]

/-- `TestConverter.convertPostmanTestToMocha` (test-converter.js, lines
12-77): absent or empty input yields the empty string, otherwise every
conversion entry is applied once, in table order. -/
def convertPostmanTestToMocha (postmanScript : Option Str) : Str :=
  match postmanScript with
  | none => []
  | some s => if s = [] then [] else conversions.foldl (fun acc r => replaceAll r acc) s

/-- The emission-time fallback condition of
`TestGenerator.generateMochaTestFromRequest` (test-generator.ts, line
175): the default assertion is used exactly when the translated script
is the empty (falsy) string, `mochaAssertions || defaultAssertion`. -/
def usedFallback (postmanScript : Option Str) : Bool :=
  (convertPostmanTestToMocha postmanScript).isEmpty

theorem applyRule_rep_ne_nil (r : Rule) (hr : ∀ cap, r.tmpl cap ≠ [])
    {s rep rem : Str} (h : applyRule r s = some (rep, rem)) : rep ≠ [] := by
  unfold applyRule at h
  cases hm : r.matchAt s with
  | none => rw [hm] at h; simp at h
  | some q =>
    rw [hm] at h
    simp only [Option.map_some'] at h
    have h2 : r.tmpl q.1 = rep := congrArg Prod.fst (Option.some.inj h)
    rw [← h2]
    exact hr q.1

theorem replGo_ne_nil (r : Rule) (hr : ∀ cap, r.tmpl cap ≠ [])
    (fuel : Nat) (c : Char) (cs : Str) : replGo r (fuel + 1) (c :: cs) ≠ [] := by
  simp only [replGo]
  cases h : applyRule r (c :: cs) with
  | none => simp
  | some p =>
    obtain ⟨rep, rem⟩ := p
    have hrep := applyRule_rep_ne_nil r hr h
    simp [hrep]

theorem replaceAll_ne_nil (r : Rule) (hr : ∀ cap, r.tmpl cap ≠ [])
    {s : Str} (hs : s ≠ []) : replaceAll r s ≠ [] := by
  cases s with
  | nil => exact absurd rfl hs
  | cons c cs => exact replGo_ne_nil r hr cs.length c cs

theorem rule1_tmpl_ne_nil : ∀ cap, rule1.tmpl cap ≠ [] := by intro cap; simp [rule1, str]
theorem rule2_tmpl_ne_nil : ∀ cap, rule2.tmpl cap ≠ [] := by intro cap; simp [rule2, str]
theorem rule3_tmpl_ne_nil : ∀ cap, rule3.tmpl cap ≠ [] := by intro cap; simp [rule3, str]
theorem rule4_tmpl_ne_nil : ∀ cap, rule4.tmpl cap ≠ [] := by intro cap; simp [rule4, str]
theorem rule5_tmpl_ne_nil : ∀ cap, rule5.tmpl cap ≠ [] := by intro cap; simp [rule5, str]
theorem rule6_tmpl_ne_nil : ∀ cap, rule6.tmpl cap ≠ [] := by intro cap; simp [rule6, str]
theorem rule7_tmpl_ne_nil : ∀ cap, rule7.tmpl cap ≠ [] := by intro cap; simp [rule7, str]
theorem rule8_tmpl_ne_nil : ∀ cap, rule8.tmpl cap ≠ [] := by intro cap; simp [rule8, str]
theorem rule9_tmpl_ne_nil : ∀ cap, rule9.tmpl cap ≠ [] := by intro cap; simp [rule9, str]

/-- A non-empty script never converts to the empty string: every
replacement template is non-empty, so each pass preserves
non-emptiness. -/
theorem convert_some_ne_nil {s : Str} (hs : s ≠ []) :
    convertPostmanTestToMocha (some s) ≠ [] := by
  show (if s = [] then [] else conversions.foldl (fun acc r => replaceAll r acc) s) ≠ []
  rw [if_neg hs]
  simp only [conversions, List.foldl]
  exact replaceAll_ne_nil rule9 rule9_tmpl_ne_nil
    (replaceAll_ne_nil rule8 rule8_tmpl_ne_nil
      (replaceAll_ne_nil rule7 rule7_tmpl_ne_nil
        (replaceAll_ne_nil rule6 rule6_tmpl_ne_nil
          (replaceAll_ne_nil rule5 rule5_tmpl_ne_nil
            (replaceAll_ne_nil rule4 rule4_tmpl_ne_nil
              (replaceAll_ne_nil rule3 rule3_tmpl_ne_nil
                (replaceAll_ne_nil rule2 rule2_tmpl_ne_nil
                  (replaceAll_ne_nil rule1 rule1_tmpl_ne_nil hs))))))))

/-! ## A compositional toolkit for `replaceAll`

Every conversion matcher strictly consumes input on success, so the
fuelled scan is fuel-invariant above the input length; scanning then
decomposes into skip steps over stuck characters, single no-match
steps, and match steps.  This settles the translation on a whole family
of scripts with a symbolic test name and a symbolic status literal. -/

theorem litm_length {lit s r : Str} (h : litm lit s = some r) :
    r.length + lit.length = s.length := by
  induction lit generalizing s with
  | nil =>
    simp [litm] at h
    simp [h]
  | cons a as ih =>
    cases s with
    | nil => simp [litm] at h
    | cons b bs =>
      simp only [litm] at h
      by_cases hab : a = b
      · rw [if_pos hab] at h
        have := ih h
        simp only [List.length_cons]
        omega
      · rw [if_neg hab] at h
        exact absurd h (by simp)

theorem one_length {p : Char → Bool} {s r : Str} (h : one p s = some r) :
    r.length + 1 = s.length := by
  cases s with
  | nil => simp [one] at h
  | cons c cs =>
    simp only [one] at h
    by_cases hc : p c
    · rw [if_pos hc] at h
      simp [← Option.some.inj h]
    · rw [if_neg hc] at h
      exact absurd h (by simp)

theorem dropWhile_length_le (p : Char → Bool) (s : Str) :
    (s.dropWhile p).length ≤ s.length := by
  induction s with
  | nil => simp
  | cons a as ih =>
    by_cases hpa : p a
    · rw [List.dropWhile_cons_of_pos hpa]
      exact Nat.le_trans ih (by simp)
    · rw [List.dropWhile_cons_of_neg hpa]

theorem wsSkip_length_le (s : Str) : (wsSkip s).length ≤ s.length :=
  dropWhile_length_le isWsJS s

theorem many1_length {p : Char → Bool} {s cap r : Str}
    (h : many1 p s = some (cap, r)) : r.length < s.length := by
  simp only [many1, List.span_eq_take_drop] at h
  by_cases ht : s.takeWhile p = []
  · rw [if_pos ht] at h
    exact absurd h (by simp)
  · rw [if_neg ht] at h
    obtain ⟨h1, h2⟩ := Prod.mk.inj (Option.some.inj h)
    subst h2
    have hlen : (s.takeWhile p).length + (s.dropWhile p).length = s.length := by
      rw [← List.length_append, List.takeWhile_append_dropWhile]
    have hpos : 0 < (s.takeWhile p).length := by
      cases hcap : s.takeWhile p with
      | nil => exact absurd hcap ht
      | cons x xs => simp
    omega

theorem rule1_consumes {s cap rem : Str} (h : rule1.matchAt s = some (cap, rem)) :
    rem.length < s.length := by
  simp only [rule1, Option.bind_eq_bind, Option.bind_eq_some] at h
  obtain ⟨s1, h1, s2, h2, s3, h3, ⟨⟨c4, s4⟩, h4, s5, h5, heq⟩⟩ := h
  have l1 := litm_length h1
  have w1 := wsSkip_length_le s1
  have l2 := litm_length h2
  have w2 := wsSkip_length_le s2
  have l3 := one_length h3
  have l4 := many1_length h4
  have l5 := one_length h5
  have : rem = s5 := (Prod.mk.inj (Option.some.inj heq)).2.symm
  subst this
  simp [str] at l1 l2 l5 ⊢
  omega

theorem rule2_consumes {s cap rem : Str} (h : rule2.matchAt s = some (cap, rem)) :
    rem.length < s.length := by
  simp only [rule2, Option.bind_eq_bind, Option.bind_eq_some] at h
  obtain ⟨s1, h1, s2, h2, s3, h3, s4, h4, s5, h5, s6, h6, ⟨⟨c7, s7⟩, h7, s8, h8, heq⟩⟩ := h
  have l1 := litm_length h1
  have w1 := wsSkip_length_le s1
  have l2 := litm_length h2
  have w2 := wsSkip_length_le s2
  have l3 := litm_length h3
  have w3 := wsSkip_length_le s3
  have l4 := litm_length h4
  have l5 := litm_length h5
  have w5 := wsSkip_length_le s5
  have l6 := litm_length h6
  have w6 := wsSkip_length_le s6
  have l7 := many1_length h7
  have l8 := litm_length h8
  have w7 := wsSkip_length_le s7
  have : rem = s8 := (Prod.mk.inj (Option.some.inj heq)).2.symm
  subst this
  simp [str] at l1 l2 l3 l4 l5 l6 l8 ⊢
  omega

theorem rule3_consumes {s cap rem : Str} (h : rule3.matchAt s = some (cap, rem)) :
    rem.length < s.length := by
  simp only [rule3, Option.bind_eq_bind, Option.bind_eq_some] at h
  obtain ⟨s1, h1, s2, h2, ⟨⟨c3, s3⟩, h3, s4, h4, heq⟩⟩ := h
  have l1 := litm_length h1
  have w1 := wsSkip_length_le s1
  have l2 := litm_length h2
  have w2 := wsSkip_length_le s2
  have l3 := many1_length h3
  have l4 := litm_length h4
  have w3 := wsSkip_length_le s3
  have : rem = s4 := (Prod.mk.inj (Option.some.inj heq)).2.symm
  subst this
  simp [str] at l1 l2 l4 ⊢
  omega

theorem rule4_consumes {s cap rem : Str} (h : rule4.matchAt s = some (cap, rem)) :
    rem.length < s.length := by
  simp only [rule4, Option.bind_eq_bind, Option.bind_eq_some] at h
  obtain ⟨s1, h1, heq⟩ := h
  have l1 := litm_length h1
  have : rem = s1 := (Prod.mk.inj (Option.some.inj heq)).2.symm
  subst this
  simp [str] at l1
  omega

theorem rule5_consumes {s cap rem : Str} (h : rule5.matchAt s = some (cap, rem)) :
    rem.length < s.length := by
  simp only [rule5, Option.bind_eq_bind, Option.bind_eq_some] at h
  obtain ⟨s1, h1, s2, h2, s3, h3, s4, h4, heq⟩ := h
  have l1 := litm_length h1
  have w1 := wsSkip_length_le s1
  have l2 := litm_length h2
  have w2 := wsSkip_length_le s2
  have l3 := litm_length h3
  have w3 := wsSkip_length_le s3
  have l4 := litm_length h4
  have : rem = s4 := (Prod.mk.inj (Option.some.inj heq)).2.symm
  subst this
  simp [str] at l1 l2 l3 l4
  omega

theorem rule6_consumes {s cap rem : Str} (h : rule6.matchAt s = some (cap, rem)) :
    rem.length < s.length := by
  simp only [rule6, Option.bind_eq_bind, Option.bind_eq_some] at h
  obtain ⟨s1, h1, s2, h2, s3, h3, ⟨⟨c4, s4⟩, h4, s5, h5, s6, h6, heq⟩⟩ := h
  have l1 := litm_length h1
  have w1 := wsSkip_length_le s1
  have l2 := litm_length h2
  have w2 := wsSkip_length_le s2
  have l3 := one_length h3
  have l4 := many1_length h4
  have l5 := one_length h5
  have l6 := litm_length h6
  have w5 := wsSkip_length_le s5
  have : rem = s6 := (Prod.mk.inj (Option.some.inj heq)).2.symm
  subst this
  simp [str] at l1 l2 l5 l6 ⊢
  omega

theorem rule7_consumes {s cap rem : Str} (h : rule7.matchAt s = some (cap, rem)) :
    rem.length < s.length := by
  simp only [rule7, Option.bind_eq_bind, Option.bind_eq_some] at h
  obtain ⟨s1, h1, heq⟩ := h
  have l1 := litm_length h1
  have : rem = s1 := (Prod.mk.inj (Option.some.inj heq)).2.symm
  subst this
  simp [str] at l1
  omega

theorem rule8_consumes {s cap rem : Str} (h : rule8.matchAt s = some (cap, rem)) :
    rem.length < s.length := by
  simp only [rule8, Option.bind_eq_bind, Option.bind_eq_some] at h
  obtain ⟨s1, h1, heq⟩ := h
  have l1 := litm_length h1
  have : rem = s1 := (Prod.mk.inj (Option.some.inj heq)).2.symm
  subst this
  simp [str] at l1
  omega

theorem rule9_consumes {s cap rem : Str} (h : rule9.matchAt s = some (cap, rem)) :
    rem.length < s.length := by
  simp only [rule9, Option.bind_eq_bind, Option.bind_eq_some] at h
  obtain ⟨s1, h1, ⟨⟨w2c, s2⟩, h2, s3, h3, s4, h4, s5, h5, heq⟩⟩ := h
  have l1 := litm_length h1
  have l2 := many1_length h2
  have l3 := litm_length h3
  have w3 := wsSkip_length_le s3
  have l4 := litm_length h4
  have w4 := wsSkip_length_le s4
  have l5 := litm_length h5
  have : rem = s5 := (Prod.mk.inj (Option.some.inj heq)).2.symm
  subst this
  simp [str] at l1 l3 l4 l5 ⊢
  omega

/-- Consumption: the matcher of every conversion entry strictly shrinks
its input on success. -/
def Consumes (r : Rule) : Prop :=
  ∀ s cap rem, r.matchAt s = some (cap, rem) → rem.length < s.length

theorem replGo_fuel_eq (r : Rule) (hc : Consumes r) :
    ∀ (f : Nat) (s : Str), s.length ≤ f → replGo r f s = replGo r s.length s := by
  intro f
  induction f using Nat.strong_induction_on with
  | _ f ih =>
    intro s hs
    match f, s with
    | _, [] => simp [replGo]
    | 0, a :: as => simp at hs
    | f + 1, a :: as =>
      have has : as.length ≤ f := by simp at hs; omega
      simp only [List.length_cons, replGo]
      cases hm : applyRule r (a :: as) with
      | none =>
        show a :: replGo r f as = a :: replGo r as.length as
        rw [ih f (Nat.lt_succ_self f) as has,
          ih as.length (Nat.lt_succ_of_le has) as (Nat.le_refl _)]
      | some p =>
        obtain ⟨rep, rem⟩ := p
        simp only [applyRule, Option.map_eq_some'] at hm
        obtain ⟨⟨cap, rem2⟩, hm1, hm2⟩ := hm
        have hrem : rem = rem2 := ((Prod.mk.inj hm2).2).symm
        subst hrem
        have hlt : rem.length < as.length + 1 := by simpa using hc _ _ _ hm1
        have h1 : rem.length ≤ f := by omega
        have h2 : rem.length ≤ as.length := by omega
        show rep ++ replGo r f rem = rep ++ replGo r as.length rem
        rw [ih f (Nat.lt_succ_self f) rem h1,
          ih as.length (Nat.lt_succ_of_le has) rem h2]

theorem replaceAll_cons_none {r : Rule} {c : Char} {cs : Str}
    (h : r.matchAt (c :: cs) = none) :
    replaceAll r (c :: cs) = c :: replaceAll r cs := by
  have ha : applyRule r (c :: cs) = none := by simp [applyRule, h]
  simp only [replaceAll, List.length_cons, replGo, ha]

theorem replaceAll_matchStep {r : Rule} (hc : Consumes r) {s cap rem : Str}
    (h : r.matchAt s = some (cap, rem)) :
    replaceAll r s = r.tmpl cap ++ replaceAll r rem := by
  cases s with
  | nil =>
    have := hc _ _ _ h
    simp at this
  | cons a as =>
    have ha : applyRule r (a :: as) = some (r.tmpl cap, rem) := by simp [applyRule, h]
    have hlt : rem.length ≤ as.length := by
      have := hc _ _ _ h
      simp at this
      omega
    simp only [replaceAll, List.length_cons, replGo, ha]
    rw [replGo_fuel_eq r hc as.length rem hlt]

theorem replaceAll_skip {r : Rule} {p : Char → Bool}
    (hstuck : ∀ c t, p c = true → r.matchAt (c :: t) = none) :
    ∀ (run rest : Str), (∀ c ∈ run, p c = true) →
      replaceAll r (run ++ rest) = run ++ replaceAll r rest := by
  intro run
  induction run with
  | nil => intro rest _; rfl
  | cons a as ih =>
    intro rest hall
    have h1 : r.matchAt (a :: (as ++ rest)) = none :=
      hstuck a _ (hall a (by simp))
    rw [List.cons_append, replaceAll_cons_none h1,
      ih rest (fun c hcm => hall c (by simp [hcm])), List.cons_append]

theorem replaceAll_nil (r : Rule) : replaceAll r [] = [] := rfl

theorem litm_cons_ne {a b : Char} {as bs : Str} (h : ¬(a = b)) :
    litm (a :: as) (b :: bs) = none := by simp [litm, h]

/-- Characters at which no conversion pattern can start: all nine
patterns begin with a literal whose first character is p or c. -/
def scanSafe (c : Char) : Bool := !(c = 'p') && !(c = 'c')

theorem rule1_stuck {c : Char} (t : Str) (hc : ¬('p' = c)) :
    rule1.matchAt (c :: t) = none := by
  have h1 : litm (str "pm.test") (c :: t) = none := by
    rw [show str "pm.test" = 'p' :: str "m.test" from rfl]
    exact litm_cons_ne hc
  simp [rule1, h1]

theorem rule2_stuck {c : Char} (t : Str) (hc : ¬('p' = c)) :
    rule2.matchAt (c :: t) = none := by
  have h1 : litm (str "pm.expect") (c :: t) = none := by
    rw [show str "pm.expect" = 'p' :: str "m.expect" from rfl]
    exact litm_cons_ne hc
  simp [rule2, h1]

theorem rule3_stuck {c : Char} (t : Str) (hc : ¬('p' = c)) :
    rule3.matchAt (c :: t) = none := by
  have h1 : litm (str "pm.response.to.have.status") (c :: t) = none := by
    rw [show str "pm.response.to.have.status" = 'p' :: str "m.response.to.have.status" from rfl]
    exact litm_cons_ne hc
  simp [rule3, h1]

theorem rule4_stuck {c : Char} (t : Str) (hc : ¬('p' = c)) :
    rule4.matchAt (c :: t) = none := by
  have h1 : litm (str "pm.response.json()") (c :: t) = none := by
    rw [show str "pm.response.json()" = 'p' :: str "m.response.json()" from rfl]
    exact litm_cons_ne hc
  simp [rule4, h1]

theorem rule5_stuck {c : Char} (t : Str) (hc : ¬('p' = c)) :
    rule5.matchAt (c :: t) = none := by
  have h1 : litm (str "pm.expect") (c :: t) = none := by
    rw [show str "pm.expect" = 'p' :: str "m.expect" from rfl]
    exact litm_cons_ne hc
  simp [rule5, h1]

theorem rule6_stuck {c : Char} (t : Str) (hc : ¬('p' = c)) :
    rule6.matchAt (c :: t) = none := by
  have h1 : litm (str "pm.response.headers.get") (c :: t) = none := by
    rw [show str "pm.response.headers.get" = 'p' :: str "m.response.headers.get" from rfl]
    exact litm_cons_ne hc
  simp [rule6, h1]

theorem rule7_stuck {c : Char} (t : Str) (hc : ¬('p' = c)) :
    rule7.matchAt (c :: t) = none := by
  have h1 : litm (str "pm.expect") (c :: t) = none := by
    rw [show str "pm.expect" = 'p' :: str "m.expect" from rfl]
    exact litm_cons_ne hc
  simp [rule7, h1]

theorem rule8_stuck {c : Char} (t : Str) (hc : ¬('p' = c)) :
    rule8.matchAt (c :: t) = none := by
  have h1 : litm (str "pm.response.responseTime") (c :: t) = none := by
    rw [show str "pm.response.responseTime" = 'p' :: str "m.response.responseTime" from rfl]
    exact litm_cons_ne hc
  simp [rule8, h1]

theorem rule9_stuck {c : Char} (t : Str) (hc : ¬('c' = c)) :
    rule9.matchAt (c :: t) = none := by
  have h1 : litm (str "const") (c :: t) = none := by
    rw [show str "const" = 'c' :: str "onst" from rfl]
    exact litm_cons_ne hc
  simp [rule9, h1]

theorem scanSafe_p {c : Char} (h : scanSafe c = true) : ¬('p' = c) := by
  intro he
  rw [← he] at h
  exact absurd h (by decide)

theorem scanSafe_c {c : Char} (h : scanSafe c = true) : ¬('c' = c) := by
  intro he
  rw [← he] at h
  exact absurd h (by decide)

/-- Characters allowed in the symbolic test name of the script family:
letters other than p and c, digits, and spaces.  They can neither close
the name capture (no quotes) nor begin any conversion pattern. -/
def nameCharOk (c : Char) : Bool :=
  (c.isAlpha && !(c = 'p') && !(c = 'c')) || c = ' ' || c.isDigit

theorem nameCharOk_notQuote {c : Char} (h : nameCharOk c = true) :
    notQuote c = true := by
  by_cases hq : c = quoteChar
  · subst hq; exact absurd h (by decide)
  · by_cases ha : c = aposChar
    · subst ha; exact absurd h (by decide)
    · simp [notQuote, isQuote, hq, ha]

theorem nameCharOk_safe {c : Char} (h : nameCharOk c = true) :
    scanSafe c = true := by
  by_cases hp : c = 'p'
  · subst hp; exact absurd h (by decide)
  · by_cases hc2 : c = 'c'
    · subst hc2; exact absurd h (by decide)
    · simp [scanSafe, hp, hc2]

theorem isDigit_safe {c : Char} (h : c.isDigit = true) : scanSafe c = true := by
  by_cases hp : c = 'p'
  · subst hp; exact absurd h (by decide)
  · by_cases hc2 : c = 'c'
    · subst hc2; exact absurd h (by decide)
    · simp [scanSafe, hp, hc2]

theorem isDigit_not_ws {c : Char} (h : c.isDigit = true) : isWsJS c = false := by
  have hsp : ¬(c = ' ') := by
    intro he
    subst he
    exact absurd h (by decide)
  simp only [Char.isDigit, Bool.and_eq_true, decide_eq_true_eq] at h
  have h48 : 48 ≤ c.toNat := h.1
  have h13 : ¬(c.toNat ≤ 13) := by omega
  simp [isWsJS, hsp, h13]

theorem takeWhile_all_append {p : Char → Bool} :
    ∀ {a : Str}, (∀ c ∈ a, p c = true) → ∀ {c0 : Char}, p c0 = false →
      ∀ (rest : Str), (a ++ c0 :: rest).takeWhile p = a := by
  intro a
  induction a with
  | nil =>
    intro _ c0 hc0 rest
    simp [List.takeWhile_cons, hc0]
  | cons x xs ih =>
    intro hall c0 hc0 rest
    have hx : p x = true := hall x (by simp)
    simp only [List.cons_append, List.takeWhile_cons, hx]
    rw [ih (fun c hc => hall c (by simp [hc])) hc0 rest]
    simp

theorem dropWhile_all_append {p : Char → Bool} :
    ∀ {a : Str}, (∀ c ∈ a, p c = true) → ∀ {c0 : Char}, p c0 = false →
      ∀ (rest : Str), (a ++ c0 :: rest).dropWhile p = c0 :: rest := by
  intro a
  induction a with
  | nil =>
    intro _ c0 hc0 rest
    simp [List.dropWhile_cons, hc0]
  | cons x xs ih =>
    intro hall c0 hc0 rest
    have hx : p x = true := hall x (by simp)
    simp only [List.cons_append, List.dropWhile_cons, hx, if_true]
    exact ih (fun c hc => hall c (by simp [hc])) hc0 rest

theorem many1_all_append {p : Char → Bool} {a : Str} (hne : a ≠ [])
    (hall : ∀ c ∈ a, p c = true) {c0 : Char} (hc0 : p c0 = false) (rest : Str) :
    many1 p (a ++ c0 :: rest) = some (a, c0 :: rest) := by
  simp only [many1, List.span_eq_take_drop,
    takeWhile_all_append hall hc0 rest, dropWhile_all_append hall hc0 rest]
  simp [hne]

theorem wsSkip_cons_not {c : Char} (h : isWsJS c = false) (t : Str) :
    wsSkip (c :: t) = c :: t := by
  simp [wsSkip, List.dropWhile_cons, h]

theorem litm_self_append (l s : Str) : litm l (l ++ s) = some s := by
  induction l with
  | nil => rfl
  | cons a as ih => simp [litm, ih]

theorem rule1_match_family (name rest : Str) (hne : name ≠ [])
    (hnq : ∀ c ∈ name, notQuote c = true) :
    rule1.matchAt (str "pm.test(\x22" ++ (name ++ quoteChar :: rest)) = some (name, rest) := by
  have hdec : str "pm.test(\x22" ++ (name ++ quoteChar :: rest)
      = str "pm.test" ++ ('(' :: quoteChar :: (name ++ quoteChar :: rest)) := by
    rw [show str "pm.test(\x22" = str "pm.test" ++ ('(' :: quoteChar :: []) from rfl]
    simp [List.append_assoc]
  rw [hdec]
  simp only [rule1]
  rw [litm_self_append]
  simp only [Option.bind_eq_bind, Option.some_bind]
  rw [wsSkip_cons_not (by decide)]
  rw [show litm (str "(") ('(' :: (quoteChar :: (name ++ quoteChar :: rest)))
      = some (quoteChar :: (name ++ quoteChar :: rest)) from litm_self_append (str "(") _]
  simp only [Option.some_bind]
  rw [wsSkip_cons_not (by decide)]
  rw [show one isQuote (quoteChar :: (name ++ quoteChar :: rest))
      = some (name ++ quoteChar :: rest) from by simp [one, isQuote]]
  simp only [Option.some_bind]
  rw [many1_all_append hne hnq (by decide) rest]
  simp only [Option.some_bind]
  rw [show one isQuote (quoteChar :: rest) = some rest from by simp [one, isQuote]]
  simp only [Option.some_bind]

theorem rule2_match_family (code rest : Str) (hne : code ≠ [])
    (hd : ∀ c ∈ code, c.isDigit = true) :
    rule2.matchAt (str "pm.expect(pm.response.code).to.equal(" ++ (code ++ ')' :: rest))
      = some (code, rest) := by
  have hdec : str "pm.expect(pm.response.code).to.equal(" ++ (code ++ ')' :: rest)
      = str "pm.expect" ++ ('(' :: (str "pm.response.code" ++ (')' ::
          (str ".to.equal" ++ ('(' :: (code ++ ')' :: rest)))))) := by
    rw [show str "pm.expect(pm.response.code).to.equal("
        = str "pm.expect" ++ ('(' :: (str "pm.response.code" ++ (')' ::
            (str ".to.equal" ++ ('(' :: []))))) from rfl]
    simp [List.append_assoc]
  rw [hdec]
  simp only [rule2]
  rw [litm_self_append]
  simp only [Option.bind_eq_bind, Option.some_bind]
  rw [wsSkip_cons_not (by decide)]
  rw [show litm (str "(") ('(' :: (str "pm.response.code" ++ (')' ::
        (str ".to.equal" ++ ('(' :: (code ++ ')' :: rest))))))
      = some (str "pm.response.code" ++ (')' ::
        (str ".to.equal" ++ ('(' :: (code ++ ')' :: rest))))) from litm_self_append (str "(") _]
  simp only [Option.some_bind]
  rw [show wsSkip (str "pm.response.code" ++ (')' ::
        (str ".to.equal" ++ ('(' :: (code ++ ')' :: rest)))))
      = str "pm.response.code" ++ (')' ::
        (str ".to.equal" ++ ('(' :: (code ++ ')' :: rest)))) from by
    rw [show str "pm.response.code" ++ (')' ::
        (str ".to.equal" ++ ('(' :: (code ++ ')' :: rest))))
      = 'p' :: (str "m.response.code" ++ (')' ::
        (str ".to.equal" ++ ('(' :: (code ++ ')' :: rest))))) from rfl]
    exact wsSkip_cons_not (by decide) _]
  rw [litm_self_append]
  simp only [Option.some_bind]
  rw [wsSkip_cons_not (by decide)]
  rw [show litm (str ")") (')' :: (str ".to.equal" ++ ('(' :: (code ++ ')' :: rest))))
      = some (str ".to.equal" ++ ('(' :: (code ++ ')' :: rest))) from litm_self_append (str ")") _]
  simp only [Option.some_bind]
  rw [litm_self_append]
  simp only [Option.some_bind]
  rw [wsSkip_cons_not (by decide)]
  rw [show litm (str "(") ('(' :: (code ++ ')' :: rest))
      = some (code ++ ')' :: rest) from litm_self_append (str "(") _]
  simp only [Option.some_bind]
  cases code with
  | nil => exact absurd rfl hne
  | cons d ds =>
    rw [show (d :: ds) ++ ')' :: rest = d :: (ds ++ ')' :: rest) from rfl,
      wsSkip_cons_not (isDigit_not_ws (hd d (by simp))) ,
      show d :: (ds ++ ')' :: rest) = (d :: ds) ++ ')' :: rest from rfl,
      many1_all_append hne hd (by decide) rest]
    simp only [Option.some_bind]
    rw [wsSkip_cons_not (by decide)]
    rw [show litm (str ")") (')' :: rest) = some rest from litm_self_append (str ")") _]
    simp only [Option.some_bind]

/-- Characters that cannot start any of the eight `pm.`-anchored
patterns. -/
def notP (c : Char) : Bool := !(c = 'p')

theorem notP_p {c : Char} (h : notP c = true) : ¬('p' = c) := by
  intro he
  rw [← he] at h
  exact absurd h (by decide)

theorem nameCharOk_notP {c : Char} (h : nameCharOk c = true) : notP c = true := by
  by_cases hp : c = 'p'
  · subst hp; exact absurd h (by decide)
  · simp [notP, hp]

theorem isDigit_notP {c : Char} (h : c.isDigit = true) : notP c = true := by
  by_cases hp : c = 'p'
  · subst hp; exact absurd h (by decide)
  · simp [notP, hp]

theorem replaceAll_all_class {r : Rule} {p : Char → Bool}
    (hstuck : ∀ c t, p c = true → r.matchAt (c :: t) = none)
    {s : Str} (hall : ∀ c ∈ s, p c = true) : replaceAll r s = s := by
  have h2 := replaceAll_skip hstuck s [] hall
  rw [List.append_nil] at h2
  rw [h2, replaceAll_nil, List.append_nil]

/-- The spec's combined-construct script family: a named test whose body
holds a fully qualified status-code equality check, with a symbolic test
name and a symbolic numeric literal. -/
def mkOrderingScript (name code : Str) : Str :=
  str "pm.test(\x22" ++ (name ++
    (str "\x22, function () \x7b pm.expect(pm.response.code).to.equal(" ++
      (code ++ str "); \x7d);")))

/-- The fully rewritten form of `mkOrderingScript`. -/
def mkOrderingResult (name code : Str) : Str :=
  str "it(\x22" ++ (name ++
    (str "\x22, function () \x7b expect(response.status).to.equal(" ++
      (code ++ str "); \x7d);")))

theorem rule1_Consumes : Consumes rule1 := fun _ _ _ h => rule1_consumes h

theorem rule2_Consumes : Consumes rule2 := fun _ _ _ h => rule2_consumes h

theorem pass1_family (name code : Str) (hne : name ≠ [])
    (hnq : ∀ c ∈ name, notQuote c = true)
    (hdig : ∀ c ∈ code, c.isDigit = true) :
    replaceAll rule1 (mkOrderingScript name code) =
      str "it(\x22" ++ (name ++
        (str "\x22, function () \x7b pm.expect(pm.response.code).to.equal(" ++
          (code ++ str "); \x7d);"))) := by
  have hstuck : ∀ c t, notP c = true → rule1.matchAt (c :: t) = none :=
    fun c t hc => rule1_stuck t (notP_p hc)
  have hm := rule1_match_family name
    (str ", function () \x7b pm.expect(pm.response.code).to.equal(" ++
      (code ++ str "); \x7d);")) hne hnq
  rw [show mkOrderingScript name code =
      str "pm.test(\x22" ++ (name ++ quoteChar ::
        (str ", function () \x7b pm.expect(pm.response.code).to.equal(" ++
          (code ++ str "); \x7d);"))) from rfl]
  rw [replaceAll_matchStep rule1_Consumes hm]
  rw [show (str ", function () \x7b pm.expect(pm.response.code).to.equal(" ++
        (code ++ str "); \x7d);"))
      = str ", function () \x7b " ++ ('p' :: (str "m.ex" ++ ('p' :: (str "ect(" ++
          ('p' :: (str "m.res" ++ ('p' :: (str "onse.code).to.equal(" ++
            (code ++ str "); \x7d);"))))))))) from rfl]
  rw [replaceAll_skip hstuck (str ", function () \x7b ") _ (by decide)]
  rw [replaceAll_cons_none (show rule1.matchAt ('p' :: (str "m.ex" ++ ('p' :: (str "ect(" ++
    ('p' :: (str "m.res" ++ ('p' :: (str "onse.code).to.equal(" ++
      (code ++ str "); \x7d);"))))))))) = none from rfl)]
  rw [replaceAll_skip hstuck (str "m.ex") _ (by decide)]
  rw [replaceAll_cons_none (show rule1.matchAt ('p' :: (str "ect(" ++
    ('p' :: (str "m.res" ++ ('p' :: (str "onse.code).to.equal(" ++
      (code ++ str "); \x7d);"))))))) = none from rfl)]
  rw [replaceAll_skip hstuck (str "ect(") _ (by decide)]
  rw [replaceAll_cons_none (show rule1.matchAt ('p' :: (str "m.res" ++ ('p' ::
    (str "onse.code).to.equal(" ++ (code ++ str "); \x7d);"))))) = none from rfl)]
  rw [replaceAll_skip hstuck (str "m.res") _ (by decide)]
  rw [replaceAll_cons_none (show rule1.matchAt ('p' :: (str "onse.code).to.equal(" ++
    (code ++ str "); \x7d);"))) = none from rfl)]
  rw [replaceAll_skip hstuck (str "onse.code).to.equal(") _ (by decide)]
  rw [replaceAll_skip hstuck code _ (fun c hc => isDigit_notP (hdig c hc))]
  rw [replaceAll_all_class hstuck (s := str "); \x7d);") (by decide)]
  simp only [rule1, List.append_assoc, List.cons_append]
  rfl

theorem pass2_family (name code : Str)
    (hn : ∀ c ∈ name, nameCharOk c = true)
    (hcode : code ≠ []) (hdig : ∀ c ∈ code, c.isDigit = true) :
    replaceAll rule2
      (str "it(\x22" ++ (name ++
        (str "\x22, function () \x7b pm.expect(pm.response.code).to.equal(" ++
          (code ++ str "); \x7d);")))) = mkOrderingResult name code := by
  have hstuck : ∀ c t, notP c = true → rule2.matchAt (c :: t) = none :=
    fun c t hc => rule2_stuck t (notP_p hc)
  have hm := rule2_match_family code (str "; \x7d);") hcode hdig
  rw [show str "it(\x22" ++ (name ++
        (str "\x22, function () \x7b pm.expect(pm.response.code).to.equal(" ++
          (code ++ str "); \x7d);")))
      = str "it(\x22" ++ (name ++ (str "\x22, function () \x7b " ++
          (str "pm.expect(pm.response.code).to.equal(" ++
            (code ++ ')' :: str "; \x7d);")))) from rfl]
  rw [replaceAll_skip hstuck (str "it(\x22") _ (by decide)]
  rw [replaceAll_skip hstuck name _ (fun c hc => nameCharOk_notP (hn c hc))]
  rw [replaceAll_skip hstuck (str "\x22, function () \x7b ") _ (by decide)]
  rw [replaceAll_matchStep rule2_Consumes hm]
  rw [replaceAll_all_class hstuck (s := str "; \x7d);") (by decide)]
  simp only [rule2, mkOrderingResult, List.append_assoc, List.cons_append]
  rfl

/-- A conversion entry whose matcher can start only at p or c, and which
fails at the four p/c positions of the rewritten text, leaves the whole
rewritten script unchanged. -/
theorem replaceAll_id_result (r : Rule)
    (hstuck : ∀ c t, scanSafe c = true → r.matchAt (c :: t) = none)
    (hp1 : ∀ X : Str, r.matchAt (str "ction () \x7b expect(response.status).to.equal(" ++ X) = none)
    (hp2 : ∀ X : Str, r.matchAt (str "pect(response.status).to.equal(" ++ X) = none)
    (hp3 : ∀ X : Str, r.matchAt (str "ct(response.status).to.equal(" ++ X) = none)
    (hp4 : ∀ X : Str, r.matchAt (str "ponse.status).to.equal(" ++ X) = none)
    (name code : Str) (hn : ∀ c ∈ name, nameCharOk c = true)
    (hdig : ∀ c ∈ code, c.isDigit = true) :
    replaceAll r (mkOrderingResult name code) = mkOrderingResult name code := by
  rw [show mkOrderingResult name code
      = str "it(\x22" ++ (name ++ (str "\x22, fun" ++ ('c' :: (str "tion () \x7b ex" ++ ('p' :: (str "e" ++ ('c' :: (str "t(res" ++ ('p' :: (str "onse.status).to.equal(" ++ (code ++ str "); \x7d);")))))))))))
      from rfl]
  rw [replaceAll_skip hstuck (str "it(\x22") _ (by decide)]
  rw [replaceAll_skip hstuck name _ (fun c hc => nameCharOk_safe (hn c hc))]
  rw [replaceAll_skip hstuck (str "\x22, fun") _ (by decide)]
  rw [replaceAll_cons_none (show r.matchAt ('c' :: (str "tion () \x7b ex" ++
    ('p' :: (str "e" ++ ('c' :: (str "t(res" ++ ('p' ::
      (str "onse.status).to.equal(" ++ (code ++ str "); \x7d);"))))))))) = none
    from hp1 _)]
  rw [replaceAll_skip hstuck (str "tion () \x7b ex") _ (by decide)]
  rw [replaceAll_cons_none (show r.matchAt ('p' :: (str "e" ++ ('c' :: (str "t(res" ++
    ('p' :: (str "onse.status).to.equal(" ++ (code ++ str "); \x7d);"))))))) = none
    from hp2 _)]
  rw [replaceAll_skip hstuck (str "e") _ (by decide)]
  rw [replaceAll_cons_none (show r.matchAt ('c' :: (str "t(res" ++ ('p' ::
    (str "onse.status).to.equal(" ++ (code ++ str "); \x7d);"))))) = none
    from hp3 _)]
  rw [replaceAll_skip hstuck (str "t(res") _ (by decide)]
  rw [replaceAll_cons_none (show r.matchAt ('p' :: (str "onse.status).to.equal(" ++
    (code ++ str "); \x7d);"))) = none from hp4 _)]
  rw [replaceAll_skip hstuck (str "onse.status).to.equal(") _ (by decide)]
  rw [replaceAll_skip hstuck code _ (fun c hc => isDigit_safe (hdig c hc))]
  rw [replaceAll_all_class hstuck (s := str "); \x7d);") (by decide)]

set_option maxHeartbeats 400000 in
theorem convert_family (name code : Str) (hname : name ≠ [])
    (hn : ∀ c ∈ name, nameCharOk c = true)
    (hcode : code ≠ []) (hdig : ∀ c ∈ code, c.isDigit = true) :
    convertPostmanTestToMocha (some (mkOrderingScript name code)) =
      mkOrderingResult name code := by
  have hnq : ∀ c ∈ name, notQuote c = true :=
    fun c hc => nameCharOk_notQuote (hn c hc)
  have hs0 : mkOrderingScript name code ≠ [] := by
    rw [show mkOrderingScript name code = 'p' :: (str "m.test(\x22" ++ (name ++
      (str "\x22, function () \x7b pm.expect(pm.response.code).to.equal(" ++
        (code ++ str "); \x7d);")))) from rfl]
    simp
  show (if mkOrderingScript name code = [] then []
    else conversions.foldl (fun acc r => replaceAll r acc) (mkOrderingScript name code))
      = mkOrderingResult name code
  rw [if_neg hs0]
  simp only [conversions, List.foldl_cons, List.foldl_nil]
  rw [pass1_family name code hname hnq hdig, pass2_family name code hn hcode hdig]
  rw [replaceAll_id_result rule3
    (fun c t hc => rule3_stuck t (scanSafe_p hc))
    (fun _ => rfl) (fun _ => rfl) (fun _ => rfl) (fun _ => rfl) name code hn hdig]
  rw [replaceAll_id_result rule4
    (fun c t hc => rule4_stuck t (scanSafe_p hc))
    (fun _ => rfl) (fun _ => rfl) (fun _ => rfl) (fun _ => rfl) name code hn hdig]
  rw [replaceAll_id_result rule5
    (fun c t hc => rule5_stuck t (scanSafe_p hc))
    (fun _ => rfl) (fun _ => rfl) (fun _ => rfl) (fun _ => rfl) name code hn hdig]
  rw [replaceAll_id_result rule6
    (fun c t hc => rule6_stuck t (scanSafe_p hc))
    (fun _ => rfl) (fun _ => rfl) (fun _ => rfl) (fun _ => rfl) name code hn hdig]
  rw [replaceAll_id_result rule7
    (fun c t hc => rule7_stuck t (scanSafe_p hc))
    (fun _ => rfl) (fun _ => rfl) (fun _ => rfl) (fun _ => rfl) name code hn hdig]
  rw [replaceAll_id_result rule8
    (fun c t hc => rule8_stuck t (scanSafe_p hc))
    (fun _ => rfl) (fun _ => rfl) (fun _ => rfl) (fun _ => rfl) name code hn hdig]
  rw [replaceAll_id_result rule9
    (fun c t hc => rule9_stuck t (scanSafe_c hc))
    (fun _ => rfl) (fun _ => rfl) (fun _ => rfl) (fun _ => rfl) name code hn hdig]

/-! ## Platform model: the WHATWG `new URL(...)` constructor

Modelled on the absolute hierarchical (`scheme://host/path?query#frag`)
URLs this compiler feeds it: parsing succeeds when the input has an
alphabetic-led scheme, the `//` authority marker and a non-empty
authority; scheme and host are lowercased, the pathname runs from the
first `/` after the authority up to `?` or `#` and defaults to `/`.
Exotic successful inputs of the real parser (non-special schemes such as
`mailto:`, percent-encoding normalization) are outside the model. -/

/-- Scheme characters after the leading letter. -/
def isSchemeChar (c : Char) : Bool :=
  c.isAlpha || c.isDigit || c = '+' || c = '-' || c = '.'

/-- Lowercasing, `String.prototype.toLowerCase` restricted to ASCII. -/
def toLowerStr (s : Str) : Str := s.map Char.toLower

/-- Result of `new URL(...)`: the fields the compiler reads. -/
structure URLRec where
  protocol : Str
  host : Str
  pathname : Str
deriving Repr, DecidableEq

/-- The path component after the authority: up to `?` or `#`,
defaulting to `/`. -/
def urlPath (rest2 : Str) : Str :=
  match rest2.takeWhile (fun d => d ≠ '?' && d ≠ '#') with
  | [] => ['/']
  | p => p

/-- Authority and path of the part after `scheme://`; an empty authority
fails. -/
def parseAuthority (scheme : Str) (after2 : Str) : Option URLRec :=
  match after2.span (fun d => d ≠ '/' && d ≠ '?' && d ≠ '#') with
  | (auth, rest2) =>
    if auth = [] then none
    else some { protocol := toLowerStr scheme ++ [':'], host := toLowerStr auth,
                pathname := urlPath rest2 }

/-- The `new URL(...)` model. -/
def parseURL : Str → Option URLRec
  | [] => none
  | c :: rest =>
    if c.isAlpha then
      match (rest.span isSchemeChar).2 with
      | ':' :: '/' :: '/' :: after2 => parseAuthority (c :: (rest.span isSchemeChar).1) after2
      | _ => none
    else none

/-- The catch-branch regex `/\/[^?#]*/` of `TestGenerator._extractUrl`:
first `/` and the maximal run of non-`?`/`#` characters after it. -/
def regexFirstPath : Str → Option Str
  | [] => none
  | c :: rest =>
    if c = '/' then some (c :: rest.takeWhile (fun d => d ≠ '?' && d ≠ '#'))
    else regexFirstPath rest

/-- The result record of `TestGenerator._extractUrl`. -/
structure UrlInfo where
  url : Str
  pathname : Str
deriving Repr, DecidableEq

/-- `TestGenerator._extractUrl` (test-generator.ts, lines 331-349):
parse the URL and take its pathname; on failure fall back to the regex
extraction; default `/` throughout.  Request URLs reach the generator as
strings in this model. -/
def extractUrl (requestUrl : Option Str) : UrlInfo :=
  match requestUrl with
  | none => { url := [], pathname := str "/" }
  | some u =>
    if u = [] then { url := [], pathname := str "/" }
    else
      match parseURL u with
      | some r => { url := u, pathname := r.pathname }
      | none =>
        match regexFirstPath u with
        | some p => { url := u, pathname := p }
        | none => { url := u, pathname := str "/" }

/-! ## Platform model: `JSON.parse` and `JSON.stringify`

`JSON.parse` is a strict recursive-descent parser over the JSON grammar;
numbers are kept as an integer significand and a power-of-ten exponent
(the float underflow of extreme exponents and the last-wins collapsing
of duplicate object keys are outside the model), strings decode the JSON
escape sequences.  `JSON.stringify(v, null, n)` pretty-prints with an
`n`-space indent. -/

/-- The opening curly brace character. -/
def braceO : Char := Char.ofNat 123

/-- The closing curly brace character. -/
def braceC : Char := Char.ofNat 125

/-- JSON values as produced by `JSON.parse`. -/
inductive JVal where
  | jnull : JVal
  | jbool (b : Bool) : JVal
  | jnum (sig : Int) (exp10 : Int) : JVal
  | jstr (s : Str) : JVal
  | jarr (items : List JVal) : JVal
  | jobj (fields : List (Str × JVal)) : JVal

/-- JSON whitespace. -/
def jWsSkip (s : Str) : Str :=
  s.dropWhile (fun c => c = ' ' || c = '\t' || c = '\n' || c = '\r')

/-- Hexadecimal digit value. -/
def hexVal (c : Char) : Option Nat :=
  if c.isDigit then some (c.toNat - 48)
  else if 'a' ≤ c && c ≤ 'f' then some (c.toNat - 87)
  else if 'A' ≤ c && c ≤ 'F' then some (c.toNat - 55)
  else none

/-- Single-character JSON string escapes. -/
def jEsc (e : Char) : Option Char :=
  if e = quoteChar then some quoteChar
  else if e = backslashChar then some backslashChar
  else if e = '/' then some '/'
  else if e = 'b' then some (Char.ofNat 8)
  else if e = 'f' then some (Char.ofNat 12)
  else if e = 'n' then some '\n'
  else if e = 'r' then some '\r'
  else if e = 't' then some '\t'
  else none

/-- JSON string body parser (after the opening quote): decodes escapes,
rejects raw control characters, stops at the closing quote. -/
def parseJStr : Nat → Str → Option (Str × Str)
  | 0, _ => none
  | _ + 1, [] => none
  | f + 1, c :: rest =>
    if c = quoteChar then some ([], rest)
    else if c = backslashChar then
      match rest with
      | 'u' :: h1 :: h2 :: h3 :: h4 :: rest2 => do
        let a ← hexVal h1
        let b ← hexVal h2
        let c2 ← hexVal h3
        let d ← hexVal h4
        let (acc, rem) ← parseJStr f rest2
        some (Char.ofNat (a * 4096 + b * 256 + c2 * 16 + d) :: acc, rem)
      | e :: rest2 => do
        let ch ← jEsc e
        let (acc, rem) ← parseJStr f rest2
        some (ch :: acc, rem)
      | [] => none
    else if c.toNat < 32 then none
    else do
      let (acc, rem) ← parseJStr f rest
      some (c :: acc, rem)

/-- Digit run to natural number. -/
def digsToNat (ds : Str) : Nat := ds.foldl (fun a c => a * 10 + (c.toNat - 48)) 0

/-- JSON number parser: `-?(0|[1-9]\d*)(\.\d+)?([eE][+-]?\d+)?`. -/
def parseJNum (s : Str) : Option (JVal × Str) := do
  let (neg, s1) := match s with
    | c :: t => if c = '-' then (true, t) else (false, s)
    | [] => (false, s)
  let (intDigs, s2) ← many1 Char.isDigit s1
  if intDigs.length > 1 && intDigs.headD '0' = '0' then none else
  let fracStep : Option (Str × Str) := match s2 with
    | c :: t =>
      if c = '.' then do
        let (fd, r) ← many1 Char.isDigit t
        some (fd, r)
      else some ([], s2)
    | [] => some ([], s2)
  let (fracDigs, s3) ← fracStep
  let expStep : Option (Int × Str) := match s3 with
    | c :: t =>
      if c = 'e' || c = 'E' then
        match t with
        | c2 :: t2 =>
          if c2 = '+' then do
            let (ed, r) ← many1 Char.isDigit t2
            some ((digsToNat ed : Int), r)
          else if c2 = '-' then do
            let (ed, r) ← many1 Char.isDigit t2
            some (-(digsToNat ed : Int), r)
          else do
            let (ed, r) ← many1 Char.isDigit t
            some ((digsToNat ed : Int), r)
        | [] => none
      else some ((0 : Int), s3)
    | [] => some ((0 : Int), s3)
  let (ex, s4) ← expStep
  let mant : Nat := digsToNat (intDigs ++ fracDigs)
  let sig : Int := if neg then -(mant : Int) else (mant : Int)
  some (JVal.jnum sig (ex - fracDigs.length), s4)

mutual

/-- JSON value parser. -/
def parseJVal : Nat → Str → Option (JVal × Str)
  | 0, _ => none
  | f + 1, s0 =>
    match jWsSkip s0 with
    | [] => none
    | c :: rest =>
      if c = quoteChar then (parseJStr rest.length rest).map (fun p => (JVal.jstr p.1, p.2))
      else if c = braceO then
        match jWsSkip rest with
        | c2 :: rest2 =>
          if c2 = braceC then some (JVal.jobj [], rest2)
          else (parseJObjItems f (c2 :: rest2)).map (fun p => (JVal.jobj p.1, p.2))
        | [] => none
      else if c = '[' then
        match jWsSkip rest with
        | c2 :: rest2 =>
          if c2 = ']' then some (JVal.jarr [], rest2)
          else (parseJArrItems f (c2 :: rest2)).map (fun p => (JVal.jarr p.1, p.2))
        | [] => none
      else if c = 't' then (litm (str "rue") rest).map (fun r => (JVal.jbool true, r))
      else if c = 'f' then (litm (str "alse") rest).map (fun r => (JVal.jbool false, r))
      else if c = 'n' then (litm (str "ull") rest).map (fun r => (JVal.jnull, r))
      else parseJNum (c :: rest)

/-- Comma-separated array items up to `]`. -/
def parseJArrItems : Nat → Str → Option (List JVal × Str)
  | 0, _ => none
  | f + 1, s => do
    let (v, r1) ← parseJVal f s
    match jWsSkip r1 with
    | c :: r2 =>
      if c = ',' then do
        let (vs, r3) ← parseJArrItems f r2
        some (v :: vs, r3)
      else if c = ']' then some ([v], r2)
      else none
    | [] => none

/-- Comma-separated `"key": value` fields up to the closing brace. -/
def parseJObjItems : Nat → Str → Option (List (Str × JVal) × Str)
  | 0, _ => none
  | f + 1, s =>
    match jWsSkip s with
    | c :: r0 =>
      if c = quoteChar then do
        let (key, r1) ← parseJStr r0.length r0
        match jWsSkip r1 with
        | c2 :: r2 =>
          if c2 = ':' then do
            let (v, r3) ← parseJVal f r2
            match jWsSkip r3 with
            | c3 :: r4 =>
              if c3 = ',' then do
                let (fs, r5) ← parseJObjItems f r4
                some ((key, v) :: fs, r5)
              else if c3 = braceC then some ([(key, v)], r4)
              else none
            | [] => none
          else none
        | [] => none
      else none
    | [] => none

end

/-- `JSON.parse`: one value, surrounded only by whitespace. -/
def jsonParse (s : Str) : Option JVal := do
  let (v, rest) ← parseJVal (s.length + 1) s
  if jWsSkip rest = [] then some v else none

/-- JavaScript truthiness of a parsed JSON value (float underflow of
extreme exponents is outside the model). -/
def jsTruthy : JVal → Bool
  | JVal.jnull => false
  | JVal.jbool b => b
  | JVal.jnum sig _ => sig != 0
  | JVal.jstr s => !s.isEmpty
  | JVal.jarr _ => true
  | JVal.jobj _ => true

/-! ## `JSON.stringify(v, null, n)` and JavaScript string conversion -/

/-- Lowercase hexadecimal digit. -/
def hexDigit (n : Nat) : Char :=
  if n < 10 then Char.ofNat (48 + n) else Char.ofNat (87 + n)

/-- JSON escaping of one string character. -/
def jsonEscapeChar (c : Char) : Str :=
  if c = quoteChar then [backslashChar, quoteChar]
  else if c = backslashChar then [backslashChar, backslashChar]
  else if c = '\n' then [backslashChar, 'n']
  else if c = '\r' then [backslashChar, 'r']
  else if c = '\t' then [backslashChar, 't']
  else if c = Char.ofNat 8 then [backslashChar, 'b']
  else if c = Char.ofNat 12 then [backslashChar, 'f']
  else if c.toNat < 32 then
    [backslashChar, 'u', '0', '0', hexDigit (c.toNat / 16), hexDigit (c.toNat % 16)]
  else [c]

/-- A JSON string literal. -/
def jsonQuote (s : Str) : Str :=
  quoteChar :: (s.flatMap jsonEscapeChar ++ [quoteChar])

/-- An indentation run. -/
def spaces (n : Nat) : Str := List.replicate n ' '

/-- Integer to decimal digits. -/
def intToStr (i : Int) : Str :=
  if i < 0 then '-' :: Nat.toDigits 10 i.natAbs else Nat.toDigits 10 i.natAbs

/-- JavaScript number-to-string on a significand/power-of-ten pair
(plain decimal notation; the exponent notation the real runtime uses
beyond 1e21 is outside the model). -/
def jnumToStr (sig exp10 : Int) : Str :=
  if 0 ≤ exp10 then intToStr (sig * (10 : Int) ^ exp10.toNat)
  else
    let k := (-exp10).toNat
    let mant := sig.natAbs
    let ipart := mant / 10 ^ k
    let fpart := mant % 10 ^ k
    let fdigits := (spaces 0 ++ Nat.toDigits 10 fpart)
    let fpadded := List.replicate (k - fdigits.length) '0' ++ fdigits
    let ftrimmed := (fpadded.reverse.dropWhile (fun c => c = '0')).reverse
    (if sig < 0 then [('-' : Char)] else []) ++ Nat.toDigits 10 ipart ++
      (if ftrimmed = [] then [] else '.' :: ftrimmed)

/-- `JSON.stringify(v, null, ind)` pretty-printing at nesting depth `d`. -/
def stringifyJ (ind : Nat) : Nat → JVal → Str
  | _, JVal.jnull => str "null"
  | _, JVal.jbool b => if b then str "true" else str "false"
  | _, JVal.jnum sig e => jnumToStr sig e
  | _, JVal.jstr s => jsonQuote s
  | d, JVal.jarr items =>
    if items.isEmpty then str "[]"
    else
      '[' :: (str "\n" ++
        List.intercalate (str ",\n")
          (items.attach.map (fun x => spaces ((d + 1) * ind) ++ stringifyJ ind (d + 1) x.1)) ++
        str "\n" ++ spaces (d * ind) ++ str "]")
  | d, JVal.jobj fields =>
    if fields.isEmpty then str "\x7b\x7d"
    else
      braceO :: (str "\n" ++
        List.intercalate (str ",\n")
          (fields.attach.map (fun x =>
            spaces ((d + 1) * ind) ++ jsonQuote x.1.1 ++ str ": " ++ stringifyJ ind (d + 1) x.1.2)) ++
        str "\n" ++ spaces (d * ind) ++ [braceC])
termination_by _ v => sizeOf v
decreasing_by
  all_goals simp_wf
  · have := List.sizeOf_lt_of_mem x.2
    omega
  · have h1 := List.sizeOf_lt_of_mem x.2
    obtain ⟨⟨a, b⟩, hmem⟩ := x
    simp only [Prod.mk.sizeOf_spec] at h1
    simp only []
    omega

/-- `JSON.stringify(environment, null, 2)` on the flat string-to-string
environment map. -/
def stringifyEnv (env : List (Str × Str)) : Str :=
  match env with
  | [] => str "\x7b\x7d"
  | _ =>
    braceO :: (str "\n" ++
      List.intercalate (str ",\n")
        (env.map (fun kv => spaces 2 ++ jsonQuote kv.1 ++ str ": " ++ jsonQuote kv.2)) ++
      str "\n" ++ [braceC])

/-! ## The request model of `test-generator.ts` and its extraction
helpers -/

/-- `PostmanRequest['body']`. -/
structure RawBody where
  mode : Option Str
  raw : Option Str

/-- One entry of `PostmanRequest['header']`; an absent `disabled` flag is
falsy, like `false`. -/
structure HeaderR where
  key : Option Str
  value : Option Str
  disabled : Bool

/-- `PostmanEvent['script']`. -/
structure ScriptR where
  exec : Option (List Str)

/-- One entry of `PostmanItem['events']`. -/
structure EventR where
  listen : Option Str
  script : Option ScriptR

/-- `PostmanRequest`; request URLs reach the generator as strings. -/
structure RequestR where
  method : Option Str
  url : Option Str
  body : Option RawBody
  header : Option (List HeaderR)

/-- `PostmanItem`. -/
structure ReqItem where
  name : Str
  request : Option RequestR
  events : Option (List EventR)

/-- JavaScript truthiness of an optional string. -/
def truthyS : Option Str → Bool
  | none => false
  | some s => !s.isEmpty

/-- `a || d` on an optional string. -/
def orElseS (o : Option Str) (d : Str) : Str :=
  if truthyS o then o.getD [] else d

/-- `String.prototype.trim`. -/
def trimStr (s : Str) : Str :=
  ((s.dropWhile isWsJS).reverse.dropWhile isWsJS).reverse

/-- `sanitizeTestName` (test-generator.ts, lines 65-68). -/
def sanitizeTestName (name : Str) : Str := escapeForJs (trimStr name)

/-- `sanitizePath` (test-generator.ts, lines 75-78). -/
def sanitizePath (pathname : Str) : Str := escapeForJs pathname

/-- The value bound to `body` in the generator: `null`, a parsed JSON
value, or the raw string. -/
inductive BodyVal where
  | bnull : BodyVal
  | bjson (v : JVal) : BodyVal
  | braw (s : Str) : BodyVal

/-- `TestGenerator._extractRequestBody` (test-generator.ts, lines
355-365). -/
def extractRequestBody (requestBody : Option RawBody) : BodyVal :=
  match requestBody with
  | none => BodyVal.bnull
  | some rb =>
    if rb.mode ≠ some (str "raw") then BodyVal.bnull
    else
      match rb.raw with
      | none => BodyVal.bnull
      | some r =>
        if r = [] then BodyVal.bnull
        else
          match jsonParse r with
          | some v => BodyVal.bjson v
          | none => BodyVal.braw r

/-- JavaScript truthiness of the extracted body. -/
def bodyTruthy : BodyVal → Bool
  | BodyVal.bnull => false
  | BodyVal.bjson v => jsTruthy v
  | BodyVal.braw s => !s.isEmpty

/-- `typeof body === 'object'` on the extracted body. -/
def bodyIsObject : BodyVal → Bool
  | BodyVal.bjson JVal.jnull => true
  | BodyVal.bjson (JVal.jarr _) => true
  | BodyVal.bjson (JVal.jobj _) => true
  | _ => false

/-- `String(body)` on a non-object body (the only shape the emitter
feeds it). -/
def jsToString : BodyVal → Str
  | BodyVal.braw s => s
  | BodyVal.bjson (JVal.jstr s) => s
  | BodyVal.bjson (JVal.jbool true) => str "true"
  | BodyVal.bjson (JVal.jbool false) => str "false"
  | BodyVal.bjson (JVal.jnum sig e) => jnumToStr sig e
  | BodyVal.bnull => str "null"
  | BodyVal.bjson JVal.jnull => str "null"
  | BodyVal.bjson (JVal.jarr _) => []
  | BodyVal.bjson (JVal.jobj _) => []

/-- `JSON.stringify(body, null, ind)` on the extracted body. -/
def stringifyBody (ind : Nat) : BodyVal → Str
  | BodyVal.bnull => str "null"
  | BodyVal.bjson v => stringifyJ ind 0 v
  | BodyVal.braw s => jsonQuote s

/-- JavaScript-object insertion: an existing key keeps its position and
takes the new value, a new key goes to the end. -/
def upsert : List (Str × Str) → Str → Str → List (Str × Str)
  | [], k, v => [(k, v)]
  | (k2, v2) :: rest, k, v =>
    if k2 = k then (k, v) :: rest else (k2, v2) :: upsert rest k v

/-- `TestGenerator._extractHeaders` (test-generator.ts, lines 371-383):
keep headers with truthy key and value that are not disabled, escaping
both; later duplicates overwrite earlier values. -/
def extractHeaders (requestHeaders : Option (List HeaderR)) : List (Str × Str) :=
  match requestHeaders with
  | none => []
  | some hs =>
    hs.foldl
      (fun acc h =>
        if truthyS h.key && truthyS h.value && !h.disabled then
          upsert acc (escapeForJs (h.key.getD [])) (escapeForJs (h.value.getD []))
        else acc)
      []

/-- `events.find(e => e.listen === 'test')`. -/
def findTestEvent : List EventR → Option EventR
  | [] => none
  | e :: rest => if e.listen = some (str "test") then some e else findTestEvent rest

/-- `TestGenerator._extractTestScript` (test-generator.ts, lines
389-396). -/
def extractTestScript (events : Option (List EventR)) : Str :=
  match events with
  | none => []
  | some evs =>
    match findTestEvent evs with
    | none => []
    | some e =>
      match e.script with
      | none => []
      | some sc =>
        match sc.exec with
        | none => []
        | some lines => List.intercalate (str "\n") lines

/-- One emitted `.set('key', 'value')` header line. -/
def setLine (k v : Str) : Str :=
  str "\n        .set(\x27" ++ k ++ str "\x27, \x27" ++ v ++ str "\x27)"

/-- `TestGenerator._generateRequestCode` (test-generator.ts, lines
402-430). -/
def generateRequestCode (method pathname : Str) (body : BodyVal)
    (headers : List (Str × Str)) : Str :=
  let code0 := str "const response = await request." ++ method ++
    str "(\x27" ++ pathname ++ str "\x27)"
  let code1 := code0 ++ (headers.map (fun kv => setLine kv.1 kv.2)).flatten
  let code2 :=
    if bodyTruthy body then
      if bodyIsObject body then
        code1 ++ str "\n        .send(" ++ stringifyBody 2 body ++ str ")"
      else
        code1 ++ str "\n        .send(\x27" ++ escapeForJs (jsToString body) ++ str "\x27)"
    else code1
  code2 ++ str ";"

/-- The non-enhanced output template of
`generateMochaTestFromRequest` (test-generator.ts, lines 170-178). -/
def plainTemplate (testName requestCode assertions : Str) : Str :=
  str "\ndescribe(\x27" ++ testName ++
  str "\x27, function() \x7b\n  it(\x27should respond with correct data\x27, async function() \x7b\n    " ++
  requestCode ++ str "\n\n    " ++ assertions ++ str "\n  \x7d);\n\x7d);\n"

/-- The enhanced output template of
`generateMochaTestFromRequest` (test-generator.ts, lines 141-164). -/
def enhancedTemplate (testName method pathname bodyParam assertions : Str) : Str :=
  str "\ndescribe(\x27" ++ testName ++
  str "\x27, function() \x7b\n  it(\x27should respond with correct data\x27, async function() \x7b\n    const startTime = Date.now();\n\n    try \x7b\n      const response = await api." ++
  method ++ str "(\x27" ++ pathname ++ str "\x27" ++ bodyParam ++
  str ");\n\n      // Basic validation\n      expectSuccess(response);\n      expectResponseTime(startTime, DEFAULT_TIMEOUT);\n\n      " ++
  assertions ++
  str "\n\n      console.log(\x27Test passed: \x27 + this.test?.title + \x27 - Status: \x27 + response.status + \x27, Time: \x27 + (Date.now() - startTime) + \x27ms\x27);\n\n    \x7d catch (error) \x7b\n      const message = error instanceof Error ? error.message : String(error);\n      console.error(\x27Test failed: \x27 + this.test?.title + \x27 - \x27 + message);\n      throw error;\n    \x7d\n  \x7d);\n\x7d);\n"

/-- `TestGenerator.generateMochaTestFromRequest` (test-generator.ts,
lines 106-180); the thrown errors surface as `Except.error`. -/
def generateMochaTestFromRequest (item : ReqItem) (parentName : Str)
    (enhanced : Bool) : Except Str Str :=
  if item.name = [] then Except.error (str "Request item must have a name")
  else
    let rawTestName :=
      if parentName ≠ [] then parentName ++ str " - " ++ item.name else item.name
    let testName := sanitizeTestName rawTestName
    match item.request with
    | none =>
      Except.error (str "Request \x22" ++ item.name ++ str "\x22 has no request object")
    | some request =>
      let method := toLowerStr (orElseS request.method (str "GET"))
      let pathname := sanitizePath (extractUrl request.url).pathname
      let body := extractRequestBody request.body
      let headers := extractHeaders request.header
      let testScript := extractTestScript item.events
      let mochaAssertions := convertPostmanTestToMocha (some testScript)
      if enhanced then
        let bodyParam :=
          if bodyTruthy body then str ", " ++ stringifyBody 6 body else []
        Except.ok (enhancedTemplate testName method pathname bodyParam
          (if mochaAssertions = [] then str "// Add custom assertions here"
           else mochaAssertions))
      else
        let requestCode := generateRequestCode method pathname body headers
        Except.ok (plainTemplate testName requestCode
          (if mochaAssertions = [] then str "expect(response.status).to.equal(200);"
           else mochaAssertions))

/-- `TestGenerator.generateSetupFile` (test-generator.ts, lines 438-460):
escapes the base URL, serializes the environment (the literal `null` when
absent) and interpolates both into the setup module template. -/
def generateSetupFile (baseUrl : Str) (environment : Option (List (Str × Str))) : Str :=
  let sanitizedBaseUrl := escapeForJs baseUrl
  let envVars :=
    match environment with
    | some e => stringifyEnv e
    | none => str "null"
  str "import supertest from \x27supertest\x27;\nimport \x7b expect \x7d from \x27chai\x27;\nimport \x27dotenv/config\x27;\n\n// Base URL configuration\nconst BASE_URL = process.env.API_BASE_URL || \x27" ++
  sanitizedBaseUrl ++
  str "\x27;\nexport const request = supertest(BASE_URL);\n\n// Environment variables from Postman\nexport const env = " ++
  envVars ++
  str ";\n\n// Request timeout configuration\nexport const DEFAULT_TIMEOUT = parseInt(process.env.TEST_TIMEOUT || \x2710000\x27, 10);\n\n// Re-export expect for convenience\nexport \x7b expect \x7d;\n"

/-! ## `Validator.validateCollection` (validator.ts, lines 42-73) -/

/-- The collection tree: a member is a folder (has a non-degenerate
`items` list) or a request item. -/
inductive PItem where
  | group (name : Str) (children : List PItem) : PItem
  | leaf (item : ReqItem) : PItem

/-- The `info` object of a raw collection document. -/
structure PInfo where
  name : Option Str
  schema : Option Str

/-- A raw collection document; `item = none` models both an absent and a
non-array `item` field. -/
structure PCollectionDoc where
  info : Option PInfo
  item : Option (List PItem)

/-- The `ValidationResult` record of validator.ts. -/
structure ValidationResult where
  isValid : Bool
  errors : List Str
  warnings : List Str

/-- `Validator.validateCollection`: null check, then the `info` and
`item` checks in source order, collecting errors and warnings as
batches. -/
def validateCollection : Option PCollectionDoc → ValidationResult
  | none =>
    { isValid := false, errors := [str "Collection is required"], warnings := [] }
  | some c =>
    let infoPart : List Str × List Str :=
      match c.info with
      | none => ([str "Collection must have an info object"], [])
      | some info =>
        ([], (if truthyS info.name then [] else [str "Collection name is missing"]) ++
             (if truthyS info.schema then [] else [str "Collection schema is missing"]))
    let itemPart : List Str × List Str :=
      match c.item with
      | none => ([str "Collection must have an items array"], [])
      | some items => ([], if items.isEmpty then [str "Collection has no items"] else [])
    let errors := infoPart.1 ++ itemPart.1
    { isValid := errors.isEmpty, errors := errors,
      warnings := infoPart.2 ++ itemPart.2 }

/-! ## `PostmanConverter._extractBaseUrl` (postman-converter.ts,
lines 115-151) -/

/-- The inner depth-first `findFirstUrl`: a member's own request URL is
tried first, then its children; a URL that fails to parse is skipped and
the search continues. -/
def findFirstUrl : List PItem → Option Str
  | [] => none
  | PItem.group _ cs :: rest =>
    match findFirstUrl cs with
    | some u => some u
    | none => findFirstUrl rest
  | PItem.leaf it :: rest =>
    match it.request with
    | some r =>
      match r.url with
      | some u =>
        if u ≠ [] then
          match parseURL u with
          | some rec => some (rec.protocol ++ str "//" ++ rec.host)
          | none => findFirstUrl rest
        else findFirstUrl rest
      | none => findFirstUrl rest
    | none => findFirstUrl rest

/-- `PostmanConverter._extractBaseUrl`: empty collections and collections
without a parseable URL yield the fixed placeholder plus a warning; the
result also carries the warning list the logger would receive. -/
def extractBaseUrl (items : List PItem) : Str × List Str :=
  if items.isEmpty then
    (str "https://api.example.com", [str "Collection has no items, using default base URL"])
  else
    let baseUrl := (findFirstUrl items).getD (str "https://api.example.com")
    if baseUrl = str "https://api.example.com" then
      (baseUrl, [str "Could not find a valid base URL in collection, using default"])
    else (baseUrl, [])

/-- Specification-side view of the same search: the requests of the tree
in preorder. -/
def collectRequests : List PItem → List ReqItem
  | [] => []
  | PItem.group _ cs :: rest => collectRequests cs ++ collectRequests rest
  | PItem.leaf it :: rest => it :: collectRequests rest

/-- The base URL a single request contributes: scheme+host of its URL
when that URL is present, truthy and parseable. -/
def reqBase (it : ReqItem) : Option Str :=
  match it.request with
  | some r =>
    match r.url with
    | some u =>
      if u ≠ [] then (parseURL u).map (fun rec => rec.protocol ++ str "//" ++ rec.host)
      else none
    | none => none
  | none => none

/-! ## Platform model: `_.kebabCase` (ASCII) -/

/-- Alphanumeric characters form words. -/
def isWordChar (c : Char) : Bool := c.isAlpha || c.isDigit

/-- Maximal alphanumeric runs of a string (each step consumes at least
one character, so fuel equal to the length reproduces the scan). -/
def splitRunsF : Nat → Str → List Str
  | _, [] => []
  | 0, _ => []
  | fuel + 1, c :: cs =>
    if isWordChar c then
      (c :: cs.takeWhile isWordChar) :: splitRunsF fuel (cs.dropWhile isWordChar)
    else splitRunsF fuel cs

/-- Maximal alphanumeric runs of a string. -/
def splitRuns (s : Str) : List Str := splitRunsF s.length s

/-- Split one alphanumeric run at lodash's camel-case and letter/digit
boundaries (accumulator is reversed). -/
def camelSplitGo (cur : Str) : Str → List Str
  | [] => [cur.reverse]
  | b :: rest =>
    match cur with
    | [] => camelSplitGo [b] rest
    | a :: _ =>
      let boundary :=
        (a.isLower && b.isUpper) ||
        (a.isDigit && b.isAlpha) ||
        (a.isAlpha && b.isDigit) ||
        (a.isUpper && b.isUpper &&
          (match rest with | c :: _ => c.isLower | [] => false))
      if boundary then cur.reverse :: camelSplitGo [b] rest
      else camelSplitGo (b :: cur) rest

/-- lodash words of one alphanumeric run. -/
def camelSplit : Str → List Str
  | [] => []
  | c :: cs => camelSplitGo [] (c :: cs)

/-- `_.kebabCase` on ASCII input: drop apostrophes, split into words,
lowercase and join with hyphens. -/
def kebabCase (s : Str) : Str :=
  toLowerStr
    (List.intercalate ['-'] ((splitRuns (s.filter (fun c => c ≠ aposChar))).flatMap camelSplit))

/-! ## The driver walk: `PostmanConverter._processItems` and
`PostmanConverter._generateTestFile` (postman-converter.ts, lines
179-271) -/

/-- JavaScript `'str'.repeat(n)`. -/
def dupStr (s : Str) : Nat → Str
  | 0 => []
  | n + 1 => s ++ dupStr s n

/-- JavaScript `String.prototype.split('/')` (always at least one
piece). -/
def splitSlash : Str → List Str
  | [] => [[]]
  | c :: rest =>
    if c = '/' then [] :: splitSlash rest
    else
      match splitSlash rest with
      | [] => [[c]]
      | w :: ws => (c :: w) :: ws

/-- `path.join` on the relative, already-normalized segments the driver
produces. -/
def joinPath (a b : Str) : Str := a ++ str "/" ++ b

/-- One generated test file: its path, the reference to the setup module
its first line imports, and its full text. -/
structure OutFile where
  filePath : Str
  setupRef : Str
  content : Str

/-- `PostmanConverter._generateTestFile`: file name from the kebab-cased
request name, setup reference `'./setup.js'` at the output root and
`'../'.repeat(parentPath.split('/').length) + 'setup.js'` below it,
parent display name from the last path segment; a generator throw
aborts the walk. -/
def generateTestFile (item : ReqItem) (outputDir parentPath : Str) :
    Except Str OutFile :=
  let fileName := kebabCase item.name ++ str ".test.js"
  let filePath :=
    if parentPath ≠ [] then joinPath (joinPath outputDir parentPath) fileName
    else joinPath outputDir fileName
  let setupPath :=
    if parentPath = [] then str "./setup.js"
    else dupStr (str "../") (splitSlash parentPath).length ++ str "setup.js"
  let parentName :=
    if parentPath ≠ [] then (splitSlash parentPath).getLastD [] else []
  match generateMochaTestFromRequest item parentName false with
  | Except.error e => Except.error e
  | Except.ok testContent =>
    Except.ok
      { filePath := filePath, setupRef := setupPath,
        content := str "const \x7b request, expect \x7d = require(\x27" ++ setupPath ++
          str "\x27);\n\n" ++ testContent }

/-- `PostmanConverter._processItems`: members with non-empty children
are folders (kebab-cased path segment, pushed only when
`maintainFolderStructure`), members with a request emit one test file,
anything else is skipped; returns the files in generation order and the
folder count. -/
def processItems (maintain : Bool) (outputDir : Str) :
    List PItem → Str → Except Str (List OutFile × Nat)
  | [], _ => Except.ok ([], 0)
  | PItem.group name cs :: rest, parentPath =>
    if cs.isEmpty then processItems maintain outputDir rest parentPath
    else
      let folderName := kebabCase name
      let folderPath :=
        if parentPath ≠ [] then parentPath ++ str "/" ++ folderName else folderName
      match processItems maintain outputDir cs
          (if maintain then folderPath else parentPath) with
      | Except.error e => Except.error e
      | Except.ok sub =>
        match processItems maintain outputDir rest parentPath with
        | Except.error e => Except.error e
        | Except.ok restRes =>
          Except.ok (sub.1 ++ restRes.1, restRes.2 + sub.2 + 1)
  | PItem.leaf it :: rest, parentPath =>
    match it.request with
    | some _ =>
      match generateTestFile it outputDir parentPath with
      | Except.error e => Except.error e
      | Except.ok f =>
        match processItems maintain outputDir rest parentPath with
        | Except.error e => Except.error e
        | Except.ok restRes => Except.ok (f :: restRes.1, restRes.2)
    | none => processItems maintain outputDir rest parentPath

/-- Specification-side view of the walk for the layout claim: the
`importDepth` (number of active folder path segments) of each emitted
request, in generation order. -/
def reqDepths (maintain : Bool) : List PItem → Nat → List Nat
  | [], _ => []
  | PItem.group _ cs :: rest, d =>
    (if cs.isEmpty then []
     else reqDepths maintain cs (if maintain then d + 1 else d)) ++
    reqDepths maintain rest d
  | PItem.leaf it :: rest, d =>
    match it.request with
    | some _ => d :: reqDepths maintain rest d
    | none => reqDepths maintain rest d

/-- The setup-module reference the source computes at a given depth. -/
def mkSetupRef (d : Nat) : Str :=
  if d = 0 then str "./setup.js" else dupStr (str "../") d ++ str "setup.js"

/-- Side conditions for the layout theorem: folder names kebab-case to
non-empty slash-free segments and every emitted request has a name. -/
def goodItems : List PItem → Bool
  | [] => true
  | PItem.group name cs :: rest =>
    (cs.isEmpty ||
      ((!(kebabCase name).isEmpty) && !decide ('/' ∈ kebabCase name) && goodItems cs)) &&
    goodItems rest
  | PItem.leaf it :: rest =>
    (match it.request with
     | some _ => !it.name.isEmpty
     | none => true) && goodItems rest

/-! ## Claim theorems -/

theorem urlPath_clean (rest2 : Str) :
    ('?' ∉ urlPath rest2) ∧ ('#' ∉ urlPath rest2) := by
  unfold urlPath
  cases htw : rest2.takeWhile (fun d => d ≠ '?' && d ≠ '#') with
  | nil => decide
  | cons p ps =>
    constructor
    · intro hmem
      have h2 : '?' ∈ rest2.takeWhile (fun d => d ≠ '?' && d ≠ '#') := by
        rw [htw]; exact hmem
      have := List.mem_takeWhile_imp h2
      simp at this
    · intro hmem
      have h2 : '#' ∈ rest2.takeWhile (fun d => d ≠ '?' && d ≠ '#') := by
        rw [htw]; exact hmem
      have := List.mem_takeWhile_imp h2
      simp at this

theorem parseAuthority_clean {scheme a : Str} {r : URLRec}
    (h : parseAuthority scheme a = some r) :
    ('?' ∉ r.pathname) ∧ ('#' ∉ r.pathname) := by
  unfold parseAuthority at h
  revert h
  cases hsp : a.span (fun d => d ≠ '/' && d ≠ '?' && d ≠ '#') with
  | mk auth rest2 =>
    intro h
    dsimp only at h
    by_cases hauth : auth = []
    · simp [hauth] at h
    · rw [if_neg hauth] at h
      have hpath := congrArg URLRec.pathname (Option.some.inj h)
      simp only at hpath
      rw [← hpath]
      exact urlPath_clean rest2

theorem parseURL_pathname_clean {u : Str} {r : URLRec} (h : parseURL u = some r) :
    ('?' ∉ r.pathname) ∧ ('#' ∉ r.pathname) := by
  cases u with
  | nil => simp [parseURL] at h
  | cons c rest =>
    simp only [parseURL] at h
    split at h
    · split at h
      · exact parseAuthority_clean h
      · simp at h
    · simp at h

theorem regexFirstPath_clean {u p : Str} (h : regexFirstPath u = some p) :
    ('?' ∉ p) ∧ ('#' ∉ p) := by
  induction u with
  | nil => simp [regexFirstPath] at h
  | cons c rest ih =>
    simp only [regexFirstPath] at h
    split at h
    · have hp := Option.some.inj h
      subst hp
      rename_i hc
      subst hc
      constructor
      · intro hmem
        cases hmem with
        | tail _ hmem2 =>
          have := List.mem_takeWhile_imp hmem2
          simp at this
      · intro hmem
        cases hmem with
        | tail _ hmem2 =>
          have := List.mem_takeWhile_imp hmem2
          simp at this
    · exact ih h

/-- C3 (amended): the emitted path is the parsed URL's path component
with the query (and fragment) stripped — never preserved; on parse
failure it is the regex extraction of the `/`-prefixed run, and `/` when
that fails or the URL is absent. -/
theorem claim3_extractUrl_path (u : Option Str) :
    ('?' ∉ (extractUrl u).pathname ∧ '#' ∉ (extractUrl u).pathname) ∧
    (∀ s r, u = some s → parseURL s = some r → (extractUrl u).pathname = r.pathname) ∧
    (∀ s, u = some s → s ≠ [] → parseURL s = none →
      (extractUrl u).pathname = (regexFirstPath s).getD (str "/")) ∧
    (u = none → (extractUrl u).pathname = str "/") := by
  refine ⟨?_, ?_, ?_, ?_⟩
  · cases u with
    | none => decide
    | some s =>
      by_cases hs : s = []
      · subst hs; decide
      · simp only [extractUrl, if_neg hs]
        cases hp : parseURL s with
        | some r => simpa using parseURL_pathname_clean hp
        | none =>
          cases hr : regexFirstPath s with
          | some p => simpa using regexFirstPath_clean hr
          | none => exact (by decide : ('?' ∉ str "/") ∧ ('#' ∉ str "/"))
  · intro s r hu hp
    subst hu
    have hs : s ≠ [] := by
      intro hnil
      subst hnil
      simp [parseURL] at hp
    simp [extractUrl, if_neg hs, hp]
  · intro s hu hs hp
    subst hu
    simp only [extractUrl, if_neg hs, hp]
    cases hr : regexFirstPath s <;> simp [hr, Option.getD]
  · intro hu
    subst hu
    rfl

/-- Witness for C3 at concrete inputs. -/
theorem claim3_extractUrl_path_witness :
    (extractUrl (some (str "https://api.example.com/users?limit=10"))).pathname =
      (parseURL (str "https://api.example.com/users?limit=10")).elim [] URLRec.pathname ∧
    (extractUrl (some (str "no url"))).pathname = (regexFirstPath (str "no url")).getD (str "/") := by
  constructor
  · have h := (claim3_extractUrl_path (some (str "https://api.example.com/users?limit=10"))).2.1
      (str "https://api.example.com/users?limit=10")
      { protocol := str "https:", host := str "api.example.com", pathname := str "/users" }
      rfl (by decide)
    rw [h]
    decide
  · exact (claim3_extractUrl_path (some (str "no url"))).2.2.1 (str "no url") rfl
      (by decide) (by decide)

/-- C3 counterexample: the query string is stripped from the emitted
path, not preserved as the claim states. -/
theorem claim3_query_stripped_cex :
    (extractUrl (some (str "https://api.example.com/users?limit=10"))).pathname = str "/users" ∧
    (extractUrl (some (str "https://api.example.com/users?limit=10"))).pathname ≠
      str "/users?limit=10" := by decide

/-- C8: validation of a document missing the metadata object. -/
theorem claim8_validate_missing_info (c : PCollectionDoc) (h : c.info = none) :
    (validateCollection (some c)).isValid = false ∧
    (∃ e ∈ (validateCollection (some c)).errors, hasSub (str "info object") e = true) ∧
    validateCollection (some c) = validateCollection (some c) ∧
    (c.item = none → (validateCollection (some c)).errors =
      [str "Collection must have an info object",
       str "Collection must have an items array"]) := by
  obtain ⟨info, item⟩ := c
  simp only at h
  subst h
  refine ⟨?_, ?_, rfl, ?_⟩
  · cases item <;> simp [validateCollection]
  · refine ⟨str "Collection must have an info object", ?_, by decide⟩
    cases item <;> simp [validateCollection]
  · intro hi
    simp only at hi
    subst hi
    rfl

/-- Witness for C8 at the concrete document with neither `info` nor
`item`. -/
theorem claim8_validate_missing_info_witness :
    (validateCollection (some { info := none, item := none })).isValid = false ∧
    (validateCollection (some { info := none, item := none })).errors =
      [str "Collection must have an info object",
       str "Collection must have an items array"] :=
  ⟨(claim8_validate_missing_info { info := none, item := none } rfl).1,
   (claim8_validate_missing_info { info := none, item := none } rfl).2.2.2 rfl⟩

/-- The environment literal the setup template embeds. -/
def envLit : Option (List (Str × Str)) → Str
  | some e => stringifyEnv e
  | none => str "null"

/-- C9: `escapeForJs` applies the backslash rule first, so escaping
round-trips (no double escaping), and the setup module always carries
the `env` binding — the serialized mapping when present, the literal
`null` when absent. -/
theorem claim9_setup_escaping_env (baseUrl : Str)
    (environment : Option (List (Str × Str))) :
    unescapeJs (escapeForJs baseUrl) = baseUrl ∧
    escapeForJs [aposChar] = [backslashChar, aposChar] ∧
    (∃ pre post, generateSetupFile baseUrl environment =
      pre ++ (str "export const env = " ++ envLit environment ++ str ";") ++ post) := by
  refine ⟨unescapeJs_escapeForJs baseUrl, by decide, ?_⟩
  have hB : str "\x27;\nexport const request = supertest(BASE_URL);\n\n// Environment variables from Postman\nexport const env = " =
      str "\x27;\nexport const request = supertest(BASE_URL);\n\n// Environment variables from Postman\n" ++
      str "export const env = " := by decide
  have hC : str ";\n\n// Request timeout configuration\nexport const DEFAULT_TIMEOUT = parseInt(process.env.TEST_TIMEOUT || \x2710000\x27, 10);\n\n// Re-export expect for convenience\nexport \x7b expect \x7d;\n" =
      str ";" ++
      str "\n\n// Request timeout configuration\nexport const DEFAULT_TIMEOUT = parseInt(process.env.TEST_TIMEOUT || \x2710000\x27, 10);\n\n// Re-export expect for convenience\nexport \x7b expect \x7d;\n" := by decide
  refine ⟨str "import supertest from \x27supertest\x27;\nimport \x7b expect \x7d from \x27chai\x27;\nimport \x27dotenv/config\x27;\n\n// Base URL configuration\nconst BASE_URL = process.env.API_BASE_URL || \x27" ++
      escapeForJs baseUrl ++
      str "\x27;\nexport const request = supertest(BASE_URL);\n\n// Environment variables from Postman\n",
    str "\n\n// Request timeout configuration\nexport const DEFAULT_TIMEOUT = parseInt(process.env.TEST_TIMEOUT || \x2710000\x27, 10);\n\n// Re-export expect for convenience\nexport \x7b expect \x7d;\n", ?_⟩
  show generateSetupFile baseUrl environment = _
  unfold generateSetupFile
  rw [hB, hC]
  cases environment <;> simp [envLit, List.append_assoc]

/-- The unrecognized script of the fallback claim. -/
def unrecognizedScript : Str := str "console.log(\x27hi\x27)"

/-- C1 (amended): the fallback fires exactly on empty translated
output; absent and empty scripts translate to the empty string, a
non-empty script never does — in particular `console.log('hi')` passes
through unchanged and does not trigger the fallback. -/
theorem claim1_fallback_flag (s : Str) (hs : s ≠ []) :
    usedFallback (some s) = false ∧
    usedFallback none = true ∧ usedFallback (some []) = true ∧
    convertPostmanTestToMocha none = [] ∧ convertPostmanTestToMocha (some []) = [] ∧
    convertPostmanTestToMocha (some unrecognizedScript) = unrecognizedScript := by
  refine ⟨?_, by decide, by decide, rfl, by decide, by decide⟩
  unfold usedFallback
  have hne := convert_some_ne_nil hs
  cases hcv : convertPostmanTestToMocha (some s) with
  | nil => exact absurd hcv hne
  | cons a l => rfl

/-- Witness for C1 at a concrete non-empty script. -/
theorem claim1_fallback_flag_witness :
    (str "x" ≠ ([] : Str)) ∧ usedFallback (some (str "x")) = false :=
  ⟨by decide, (claim1_fallback_flag (str "x") (by decide)).1⟩

/-- C1 counterexample: translating the unrecognized script
`console.log('hi')` leaves it unchanged (output textually identical to
the non-empty input) yet the fallback flag is `false`, not `true` as
claimed. -/
theorem claim1_unrecognized_cex :
    usedFallback (some unrecognizedScript) = false ∧
    convertPostmanTestToMocha (some unrecognizedScript) = unrecognizedScript := by
  constructor
  · decide
  · decide

theorem hasSub_of_parts {p x a b : Str} (hx : x = a ++ p ++ b) (hp : p ≠ []) :
    hasSub p x = true := by
  rw [hx]
  exact hasSub_append p a b hp

/-- C7: for every script of the combined-construct family
`pm.test("<name>", function () ... pm.expect(pm.response.code).to.equal(<code>); ...)`
with a non-empty test name over quote-free, pattern-safe characters and
a non-empty digit run as status literal, the named-test rule fires
before the generic `pm.expect` rewrite and the output is exactly the
rewritten script: it contains the rewritten declaration `it("<name>"`
and the rewritten assertion `expect(response.status).to.equal(<code>)`
with the numeric literal unchanged. -/
theorem claim7_translation_ordering (name code : Str) (hname : name ≠ [])
    (hn : ∀ c ∈ name, nameCharOk c = true)
    (hcode : code ≠ []) (hdig : ∀ c ∈ code, c.isDigit = true) :
    convertPostmanTestToMocha (some (mkOrderingScript name code)) =
        mkOrderingResult name code ∧
    hasSub (str "it(\x22" ++ (name ++ str "\x22"))
        (convertPostmanTestToMocha (some (mkOrderingScript name code))) = true ∧
    hasSub (str "expect(response.status).to.equal(" ++ (code ++ str ")"))
        (convertPostmanTestToMocha (some (mkOrderingScript name code))) = true := by
  have hconv := convert_family name code hname hn hcode hdig
  refine ⟨hconv, ?_, ?_⟩
  · rw [hconv]
    refine hasSub_of_parts (a := []) (b := str ", function () \x7b expect(response.status).to.equal(" ++ (code ++ str "); \x7d);")) ?_ ?_
    · simp only [mkOrderingResult, List.nil_append, List.append_assoc]
      rfl
    · rw [show str "it(\x22" ++ (name ++ str "\x22")
        = 'i' :: (str "t(\x22" ++ (name ++ str "\x22")) from rfl]
      simp
  · rw [hconv]
    refine hasSub_of_parts (a := str "it(\x22" ++ (name ++ str "\x22, function () \x7b "))
      (b := str "; \x7d);") ?_ ?_
    · simp only [mkOrderingResult, List.append_assoc]
      rfl
    · rw [show str "expect(response.status).to.equal(" ++ (code ++ str ")")
        = 'e' :: (str "xpect(response.status).to.equal(" ++ (code ++ str ")")) from rfl]
      simp

theorem claim7_translation_ordering_witness :
    convertPostmanTestToMocha (some (mkOrderingScript (str "is 200") (str "200"))) =
        mkOrderingResult (str "is 200") (str "200") ∧
    hasSub (str "it(\x22" ++ (str "is 200" ++ str "\x22"))
        (convertPostmanTestToMocha (some (mkOrderingScript (str "is 200") (str "200")))) = true ∧
    hasSub (str "expect(response.status).to.equal(" ++ (str "200" ++ str ")"))
        (convertPostmanTestToMocha (some (mkOrderingScript (str "is 200") (str "200")))) = true :=
  claim7_translation_ordering (str "is 200") (str "200")
    (by decide) (by decide) (by decide) (by decide)

theorem plainTemplate_hasSub_assert (T RC A : Str) (hA : A ≠ []) :
    hasSub A (plainTemplate T RC A) = true := by
  refine hasSub_of_parts (a := str "\ndescribe(\x27" ++ T ++
    str "\x27, function() \x7b\n  it(\x27should respond with correct data\x27, async function() \x7b\n    " ++
    RC ++ str "\n\n    ") (b := str "\n  \x7d);\n\x7d);\n") ?_ hA
  simp [plainTemplate, List.append_assoc]

theorem enhancedTemplate_hasSub_assert (T m p bp A : Str) (hA : A ≠ []) :
    hasSub A (enhancedTemplate T m p bp A) = true := by
  refine hasSub_of_parts (a := str "\ndescribe(\x27" ++ T ++
    str "\x27, function() \x7b\n  it(\x27should respond with correct data\x27, async function() \x7b\n    const startTime = Date.now();\n\n    try \x7b\n      const response = await api." ++
    m ++ str "(\x27" ++ p ++ str "\x27" ++ bp ++
    str ");\n\n      // Basic validation\n      expectSuccess(response);\n      expectResponseTime(startTime, DEFAULT_TIMEOUT);\n\n      ")
    (b := str "\n\n      console.log(\x27Test passed: \x27 + this.test?.title + \x27 - Status: \x27 + response.status + \x27, Time: \x27 + (Date.now() - startTime) + \x27ms\x27);\n\n    \x7d catch (error) \x7b\n      const message = error instanceof Error ? error.message : String(error);\n      console.error(\x27Test failed: \x27 + this.test?.title + \x27 - \x27 + message);\n      throw error;\n    \x7d\n  \x7d);\n\x7d);\n") ?_ hA
  simp [enhancedTemplate, List.append_assoc]

/-- C2 (amended): when the translation is empty (fallback), the plain
mode inserts the default assertion `expect(response.status).to.equal(200);`
(exactly 200, not one of 200/201/204), and the enhanced mode of
`generateMochaTestFromRequest` inserts the comment placeholder
`// Add custom assertions here` instead of a status assertion. -/
theorem claim2_default_assertion (item : ReqItem) (parentName : Str) (req : RequestR)
    (hname : item.name ≠ []) (hreq : item.request = some req)
    (hscript : convertPostmanTestToMocha (some (extractTestScript item.events)) = []) :
    (∃ t, generateMochaTestFromRequest item parentName false = Except.ok t ∧
      hasSub (str "expect(response.status).to.equal(200);") t = true) ∧
    (∃ t, generateMochaTestFromRequest item parentName true = Except.ok t ∧
      hasSub (str "// Add custom assertions here") t = true) := by
  constructor
  · have heq : generateMochaTestFromRequest item parentName false =
        Except.ok (plainTemplate
          (sanitizeTestName (if parentName ≠ [] then parentName ++ str " - " ++ item.name
            else item.name))
          (generateRequestCode (toLowerStr (orElseS req.method (str "GET")))
            (sanitizePath (extractUrl req.url).pathname)
            (extractRequestBody req.body) (extractHeaders req.header))
          (str "expect(response.status).to.equal(200);")) := by
      simp [generateMochaTestFromRequest, if_neg hname, hreq, hscript]
    exact ⟨_, heq, plainTemplate_hasSub_assert _ _ _ (by decide)⟩
  · have heq : generateMochaTestFromRequest item parentName true =
        Except.ok (enhancedTemplate
          (sanitizeTestName (if parentName ≠ [] then parentName ++ str " - " ++ item.name
            else item.name))
          (toLowerStr (orElseS req.method (str "GET")))
          (sanitizePath (extractUrl req.url).pathname)
          (if bodyTruthy (extractRequestBody req.body) then
            str ", " ++ stringifyBody 6 (extractRequestBody req.body) else [])
          (str "// Add custom assertions here")) := by
      simp [generateMochaTestFromRequest, if_neg hname, hreq, hscript]
    exact ⟨_, heq, enhancedTemplate_hasSub_assert _ _ _ _ _ (by decide)⟩

/-- A scriptless request used in the fallback counterexamples. -/
def pingItem : ReqItem :=
  { name := str "Ping",
    request := some { method := none, url := some (str "https://x.io/p"),
                      body := none, header := none },
    events := none }

/-- The plain-mode output for `pingItem`. -/
def pingPlainOut : Str :=
  match generateMochaTestFromRequest pingItem [] false with
  | Except.ok t => t
  | Except.error _ => []

/-- The enhanced-mode output for `pingItem`. -/
def pingEnhOut : Str :=
  match generateMochaTestFromRequest pingItem [] true with
  | Except.ok t => t
  | Except.error _ => []

/-- C2 counterexample: on a fallback request the plain mode emits
`expect(response.status).to.equal(200);` and no `oneOf([200, 201, 204])`
assertion, and the enhanced mode emits no `to.equal(200)` assertion at
all. -/
theorem claim2_oneof_cex :
    hasSub (str "expect(response.status).to.equal(200);") pingPlainOut = true ∧
    hasSub (str "oneOf([200, 201, 204])") pingPlainOut = false ∧
    hasSub (str "to.equal(200)") pingEnhOut = false := by
  refine ⟨by decide, by decide, by decide⟩

/-- Witness for C2 at the concrete `pingItem`. -/
theorem claim2_default_assertion_witness :
    ∃ t, generateMochaTestFromRequest pingItem [] false = Except.ok t ∧
      hasSub (str "expect(response.status).to.equal(200);") t = true :=
  (claim2_default_assertion pingItem []
    { method := none, url := some (str "https://x.io/p"), body := none, header := none }
    (by decide) rfl (by decide)).1

/-- C10: a raw-mode body whose string parses as JSON to a falsy value
(0, false, null, "") is indistinguishable at the emitter's interface
from an absent body: the generated test is textually identical, with no
`.send` call and no body argument. -/
theorem claim10_falsy_body (name : Str) (method url : Option Str)
    (hdrs : Option (List HeaderR)) (events : Option (List EventR))
    (parentName : Str) (enhanced : Bool) (raw : Str) (v : JVal)
    (hparse : jsonParse raw = some v) (hfalsy : jsTruthy v = false) :
    generateMochaTestFromRequest
      ⟨name, some ⟨method, url, some ⟨some (str "raw"), some raw⟩, hdrs⟩, events⟩
      parentName enhanced =
    generateMochaTestFromRequest
      ⟨name, some ⟨method, url, none, hdrs⟩, events⟩ parentName enhanced := by
  have hnil : jsonParse ([] : Str) = none := by rfl
  have hraw : raw ≠ [] := by
    intro h0
    rw [h0, hnil] at hparse
    exact Option.noConfusion hparse
  have hbody : extractRequestBody (some ⟨some (str "raw"), some raw⟩) =
      BodyVal.bjson v := by
    simp [extractRequestBody, hraw, hparse, str]
  have htr : bodyTruthy (extractRequestBody
      (some ⟨some (str "raw"), some raw⟩)) = false := by
    rw [hbody]
    simp [bodyTruthy, hfalsy]
  have htr2 : bodyTruthy (extractRequestBody none) = false := by rfl
  by_cases hname : name = []
  · simp [generateMochaTestFromRequest, hname]
  · simp only [generateMochaTestFromRequest]
    simp only [hname, ite_false, if_neg]
    cases enhanced with
    | true => simp [htr, htr2]
    | false => simp [generateRequestCode, htr, htr2]

/-- Witness for C10 at raw body `"0"`. -/
theorem claim10_falsy_body_witness :
    jsonParse (str "0") = some (JVal.jnum 0 0) ∧
    jsTruthy (JVal.jnum 0 0) = false ∧
    generateMochaTestFromRequest
      ⟨str "Get", some ⟨some (str "GET"), some (str "https://x.io/p"),
        some ⟨some (str "raw"), some (str "0")⟩, none⟩, none⟩ [] false =
    generateMochaTestFromRequest
      ⟨str "Get", some ⟨some (str "GET"), some (str "https://x.io/p"),
        none, none⟩, none⟩ [] false :=
  ⟨rfl, rfl,
   claim10_falsy_body (str "Get") (some (str "GET")) (some (str "https://x.io/p"))
     none none [] false (str "0") (JVal.jnum 0 0) rfl rfl⟩

/-- The source guard for emitting a header:
`header.key && header.value && !header.disabled`. -/
def headerQualifies (h : HeaderR) : Bool :=
  truthyS h.key && truthyS h.value && !h.disabled

theorem upsert_mem_self (acc : List (Str × Str)) (k v : Str) :
    (k, v) ∈ upsert acc k v := by
  induction acc with
  | nil => simp [upsert]
  | cons p rest ih =>
    obtain ⟨k2, v2⟩ := p
    by_cases hk : k2 = k
    · simp [upsert, hk]
    · simp only [upsert, if_neg hk]
      exact List.mem_cons_of_mem _ ih

theorem upsert_mem_preserve {acc : List (Str × Str)} {k0 v0 : Str} (k v : Str)
    (hmem : (k0, v0) ∈ acc) (hne : k0 ≠ k) : (k0, v0) ∈ upsert acc k v := by
  induction acc with
  | nil => simp at hmem
  | cons p rest ih =>
    obtain ⟨k2, v2⟩ := p
    by_cases hk : k2 = k
    · simp only [upsert, if_pos hk]
      cases List.mem_cons.mp hmem with
      | inl h0 =>
        exfalso
        apply hne
        have := congrArg Prod.fst h0
        simp at this
        rw [this, hk]
      | inr h0 => exact List.mem_cons_of_mem _ h0
    · simp only [upsert, if_neg hk]
      cases List.mem_cons.mp hmem with
      | inl h0 => exact h0 ▸ List.mem_cons_self _ _
      | inr h0 => exact List.mem_cons_of_mem _ (ih h0)

theorem upsert_sub {acc : List (Str × Str)} {kv : Str × Str} {k v : Str}
    (hmem : kv ∈ upsert acc k v) : kv ∈ acc ∨ kv = (k, v) := by
  induction acc with
  | nil =>
    simp [upsert] at hmem
    exact Or.inr hmem
  | cons p rest ih =>
    obtain ⟨k2, v2⟩ := p
    by_cases hk : k2 = k
    · simp only [upsert, if_pos hk] at hmem
      cases List.mem_cons.mp hmem with
      | inl h0 => exact Or.inr h0
      | inr h0 => exact Or.inl (List.mem_cons_of_mem _ h0)
    · simp only [upsert, if_neg hk] at hmem
      cases List.mem_cons.mp hmem with
      | inl h0 => exact Or.inl (h0 ▸ List.mem_cons_self _ _)
      | inr h0 =>
        cases ih h0 with
        | inl h1 => exact Or.inl (List.mem_cons_of_mem _ h1)
        | inr h1 => exact Or.inr h1

theorem upsert_keys_sub {acc : List (Str × Str)} {k0 k v : Str}
    (h : k0 ∈ (upsert acc k v).map Prod.fst) :
    k0 ∈ acc.map Prod.fst ∨ k0 = k := by
  rw [List.mem_map] at h
  obtain ⟨kv, hkv, hfst⟩ := h
  cases upsert_sub hkv with
  | inl h1 => exact Or.inl (hfst ▸ List.mem_map_of_mem Prod.fst h1)
  | inr h1 =>
    subst h1
    exact Or.inr hfst.symm

theorem upsert_keys_nodup {acc : List (Str × Str)} (k v : Str)
    (h : (acc.map Prod.fst).Nodup) : ((upsert acc k v).map Prod.fst).Nodup := by
  induction acc with
  | nil => simp [upsert]
  | cons p rest ih =>
    obtain ⟨k2, v2⟩ := p
    simp only [List.map_cons, List.nodup_cons] at h
    obtain ⟨hk2, hrest⟩ := h
    by_cases hk : k2 = k
    · subst hk
      rw [show upsert ((k2, v2) :: rest) k2 v = (k2, v) :: rest from by simp [upsert]]
      simp only [List.map_cons, List.nodup_cons]
      exact ⟨hk2, hrest⟩
    · simp only [upsert, if_neg hk, List.map_cons, List.nodup_cons]
      refine ⟨?_, ih hrest⟩
      intro hmem
      cases upsert_keys_sub hmem with
      | inl h1 => exact hk2 h1
      | inr h1 => exact hk h1

theorem nodup_keys_val_unique {acc : List (Str × Str)} {k v1 v2 : Str}
    (hnd : (acc.map Prod.fst).Nodup)
    (h1 : (k, v1) ∈ acc) (h2 : (k, v2) ∈ acc) : v1 = v2 := by
  induction acc with
  | nil => simp at h1
  | cons p rest ih =>
    obtain ⟨k2, w⟩ := p
    simp only [List.map_cons, List.nodup_cons] at hnd
    obtain ⟨hk2, hrest⟩ := hnd
    cases List.mem_cons.mp h1 with
    | inl he1 =>
      cases List.mem_cons.mp h2 with
      | inl he2 =>
        exact ((Prod.mk.inj he1).2).trans ((Prod.mk.inj he2).2).symm
      | inr he2 =>
        exfalso
        apply hk2
        rw [← (Prod.mk.inj he1).1]
        exact List.mem_map_of_mem Prod.fst he2
    | inr he1 =>
      cases List.mem_cons.mp h2 with
      | inl he2 =>
        exfalso
        apply hk2
        rw [← (Prod.mk.inj he2).1]
        exact List.mem_map_of_mem Prod.fst he1
      | inr he2 => exact ih hrest he1 he2

theorem foldl_headers_keys_nodup (hs : List HeaderR) :
    ∀ (acc : List (Str × Str)), (acc.map Prod.fst).Nodup →
      ((hs.foldl
        (fun acc h =>
          if truthyS h.key && truthyS h.value && !h.disabled then
            upsert acc (escapeForJs (h.key.getD [])) (escapeForJs (h.value.getD []))
          else acc) acc).map Prod.fst).Nodup := by
  induction hs with
  | nil =>
    intro acc h
    simpa using h
  | cons h0 rest ih =>
    intro acc hacc
    simp only [List.foldl_cons]
    by_cases hq : (truthyS h0.key && truthyS h0.value && !h0.disabled) = true
    · rw [if_pos hq]
      exact ih _ (upsert_keys_nodup _ _ hacc)
    · rw [if_neg hq]
      exact ih _ hacc

theorem foldl_headers_preserve (post : List HeaderR) :
    ∀ (acc : List (Str × Str)) (k v : Str),
      (∀ h2 ∈ post, headerQualifies h2 = true →
        escapeForJs (h2.key.getD []) ≠ k) →
      ((k, v) ∈ post.foldl
        (fun acc h =>
          if truthyS h.key && truthyS h.value && !h.disabled then
            upsert acc (escapeForJs (h.key.getD [])) (escapeForJs (h.value.getD []))
          else acc) acc ↔ (k, v) ∈ acc) := by
  induction post with
  | nil =>
    intro acc k v _
    simp
  | cons h0 rest ih =>
    intro acc k v hlast
    simp only [List.foldl_cons]
    by_cases hq : (truthyS h0.key && truthyS h0.value && !h0.disabled) = true
    · rw [if_pos hq]
      have hne : escapeForJs (h0.key.getD []) ≠ k :=
        hlast h0 (List.mem_cons_self _ _) hq
      rw [ih _ k v (fun h2 hm hq2 => hlast h2 (List.mem_cons_of_mem _ hm) hq2)]
      constructor
      · intro hmem
        cases upsert_sub hmem with
        | inl h1 => exact h1
        | inr h1 =>
          exfalso
          exact hne ((Prod.mk.inj h1).1.symm ▸ rfl)
      · intro hmem
        exact upsert_mem_preserve _ _ hmem (fun he => hne he.symm)
    · rw [if_neg hq]
      exact ih _ k v (fun h2 hm hq2 => hlast h2 (List.mem_cons_of_mem _ hm) hq2)

theorem foldl_headers_exists (hs : List HeaderR) :
    ∀ (acc : List (Str × Str)) (k : Str),
      ((∃ v0, (k, v0) ∈ acc) ∨ ∃ h ∈ hs, headerQualifies h = true ∧
        escapeForJs (h.key.getD []) = k) →
      ∃ v, (k, v) ∈ hs.foldl
        (fun acc h =>
          if truthyS h.key && truthyS h.value && !h.disabled then
            upsert acc (escapeForJs (h.key.getD [])) (escapeForJs (h.value.getD []))
          else acc) acc := by
  induction hs with
  | nil =>
    intro acc k hin
    simp only [List.foldl_nil]
    rcases hin with ⟨v0, h0⟩ | ⟨h, hmem, _⟩
    · exact ⟨v0, h0⟩
    · simp at hmem
  | cons h0 rest ih =>
    intro acc k hin
    simp only [List.foldl_cons]
    by_cases hq : (truthyS h0.key && truthyS h0.value && !h0.disabled) = true
    · rw [if_pos hq]
      by_cases hk : escapeForJs (h0.key.getD []) = k
      · refine ih _ k (Or.inl ⟨escapeForJs (h0.value.getD []), ?_⟩)
        rw [← hk]
        exact upsert_mem_self acc _ _
      · rcases hin with ⟨v0, hv0⟩ | ⟨h, hmem, hq2, hk2⟩
        · exact ih _ k (Or.inl ⟨v0, upsert_mem_preserve _ _ hv0 (fun he => hk he.symm)⟩)
        · cases List.mem_cons.mp hmem with
          | inl he =>
            exfalso
            apply hk
            rw [← he]
            exact hk2
          | inr he => exact ih _ k (Or.inr ⟨h, he, hq2, hk2⟩)
    · rw [if_neg hq]
      rcases hin with ⟨v0, hv0⟩ | ⟨h, hmem, hq2, hk2⟩
      · exact ih _ k (Or.inl ⟨v0, hv0⟩)
      · cases List.mem_cons.mp hmem with
        | inl he =>
          exfalso
          apply hq
          rw [← he]
          exact hq2
        | inr he => exact ih _ k (Or.inr ⟨h, he, hq2, hk2⟩)

theorem extractHeaders_last_wins (hs : List HeaderR) (pre post : List HeaderR)
    (h : HeaderR) (hdec : hs = pre ++ h :: post) (hq : headerQualifies h = true)
    (hlast : ∀ h2 ∈ post, headerQualifies h2 = true →
      escapeForJs (h2.key.getD []) ≠ escapeForJs (h.key.getD [])) :
    (escapeForJs (h.key.getD []), escapeForJs (h.value.getD [])) ∈
      extractHeaders (some hs) ∧
    (∀ v, (escapeForJs (h.key.getD []), v) ∈ extractHeaders (some hs) →
      v = escapeForJs (h.value.getD [])) := by
  have hEH : extractHeaders (some hs) = hs.foldl
      (fun acc h =>
        if truthyS h.key && truthyS h.value && !h.disabled then
          upsert acc (escapeForJs (h.key.getD [])) (escapeForJs (h.value.getD []))
        else acc) [] := rfl
  have hq2 : (truthyS h.key && truthyS h.value && !h.disabled) = true := hq
  have hsplit : extractHeaders (some hs) = post.foldl
      (fun acc h =>
        if truthyS h.key && truthyS h.value && !h.disabled then
          upsert acc (escapeForJs (h.key.getD [])) (escapeForJs (h.value.getD []))
        else acc)
      (upsert (pre.foldl
        (fun acc h =>
          if truthyS h.key && truthyS h.value && !h.disabled then
            upsert acc (escapeForJs (h.key.getD [])) (escapeForJs (h.value.getD []))
          else acc) [])
        (escapeForJs (h.key.getD [])) (escapeForJs (h.value.getD []))) := by
    rw [hEH, hdec, List.foldl_append, List.foldl_cons, if_pos hq2]
  constructor
  · rw [hsplit]
    exact (foldl_headers_preserve post _ _ _ hlast).mpr (upsert_mem_self _ _ _)
  · intro v hv
    rw [hsplit] at hv
    have hv2 := (foldl_headers_preserve post _ _ _ hlast).mp hv
    have hnd : ((upsert (pre.foldl
        (fun acc h =>
          if truthyS h.key && truthyS h.value && !h.disabled then
            upsert acc (escapeForJs (h.key.getD [])) (escapeForJs (h.value.getD []))
          else acc) [])
        (escapeForJs (h.key.getD []))
        (escapeForJs (h.value.getD []))).map Prod.fst).Nodup :=
      upsert_keys_nodup _ _ (foldl_headers_keys_nodup pre [] (by simp))
    exact nodup_keys_val_unique hnd hv2 (upsert_mem_self _ _ _)

theorem extractHeaders_key_present (hs : List HeaderR) (h : HeaderR)
    (hmem : h ∈ hs) (hq : headerQualifies h = true) :
    ∃ v, (escapeForJs (h.key.getD []), v) ∈ extractHeaders (some hs) :=
  foldl_headers_exists hs [] _ (Or.inr ⟨h, hmem, hq, rfl⟩)

theorem foldl_headers_sub (hs : List HeaderR) :
    ∀ (acc : List (Str × Str)) (kv : Str × Str),
      kv ∈ hs.foldl
        (fun acc h =>
          if truthyS h.key && truthyS h.value && !h.disabled then
            upsert acc (escapeForJs (h.key.getD [])) (escapeForJs (h.value.getD []))
          else acc) acc →
      kv ∈ acc ∨ ∃ h ∈ hs, headerQualifies h = true ∧
        kv = (escapeForJs (h.key.getD []), escapeForJs (h.value.getD [])) := by
  induction hs with
  | nil =>
    intro acc kv hmem
    simp only [List.foldl_nil] at hmem
    exact Or.inl hmem
  | cons h0 rest ih =>
    intro acc kv hmem
    simp only [List.foldl_cons] at hmem
    by_cases hq : (truthyS h0.key && truthyS h0.value && !h0.disabled) = true
    · rw [if_pos hq] at hmem
      cases ih _ kv hmem with
      | inl h1 =>
        cases upsert_sub h1 with
        | inl h2 => exact Or.inl h2
        | inr h2 => exact Or.inr ⟨h0, List.mem_cons_self _ _, hq, h2⟩
      | inr h1 =>
        obtain ⟨h, hm, hq2, he⟩ := h1
        exact Or.inr ⟨h, List.mem_cons_of_mem _ hm, hq2, he⟩
    · rw [if_neg hq] at hmem
      cases ih _ kv hmem with
      | inl h1 => exact Or.inl h1
      | inr h1 =>
        obtain ⟨h, hm, hq2, he⟩ := h1
        exact Or.inr ⟨h, List.mem_cons_of_mem _ hm, hq2, he⟩

theorem mem_flatten_split (f : (Str × Str) → Str) (pre post : Str)
    (l : List (Str × Str)) (kv : Str × Str) (hkv : kv ∈ l) :
    ∃ a b, pre ++ (l.map f).flatten ++ post = a ++ f kv ++ b := by
  obtain ⟨s1, s2, hsplit⟩ := List.append_of_mem hkv
  subst hsplit
  exact ⟨pre ++ (s1.map f).flatten, (s2.map f).flatten ++ post,
    by simp [List.append_assoc]⟩

theorem generateRequestCode_set_mem (method pathname : Str) (body : BodyVal)
    (headers : List (Str × Str)) {kv : Str × Str} (hkv : kv ∈ headers) :
    ∃ a b, generateRequestCode method pathname body headers =
      a ++ setLine kv.1 kv.2 ++ b := by
  have hcode : generateRequestCode method pathname body headers =
      (str "const response = await request." ++ method ++ str "(\x27" ++ pathname ++
        str "\x27)") ++
      (headers.map (fun kv => setLine kv.1 kv.2)).flatten ++
      ((if bodyTruthy body then
          (if bodyIsObject body then str "\n        .send(" ++ stringifyBody 2 body ++ str ")"
           else str "\n        .send(\x27" ++ escapeForJs (jsToString body) ++ str "\x27)")
        else []) ++ str ";") := by
    unfold generateRequestCode
    by_cases h1 : bodyTruthy body = true
    · by_cases h2 : bodyIsObject body = true <;> simp [h1, h2, List.append_assoc]
    · simp [h1, List.append_assoc]
  rw [hcode]
  exact mem_flatten_split _ _ _ _ _ hkv

set_option maxHeartbeats 2000000 in
/-- C4 (amended): the plain request code contains a `.set` call for
every header with non-empty key, non-empty value and `disabled` false,
with the last such header winning for a duplicated escaped key: the
last qualifying header of each escaped key has its exact escaped pair
emitted and its value is the only one bound to that key, every
qualifying header has a `.set` call on its escaped key, and every
emitted header pair comes from such a header — disabled headers and
headers with empty key or value contribute nothing. -/
theorem claim4_headers (method pathname : Str) (body : BodyVal) (hs : List HeaderR) :
    (∀ pre h post, hs = pre ++ h :: post → headerQualifies h = true →
      (∀ h2 ∈ post, headerQualifies h2 = true →
        escapeForJs (h2.key.getD []) ≠ escapeForJs (h.key.getD [])) →
      (∃ a b, generateRequestCode method pathname body (extractHeaders (some hs)) =
        a ++ setLine (escapeForJs (h.key.getD [])) (escapeForJs (h.value.getD [])) ++ b) ∧
      (∀ v, (escapeForJs (h.key.getD []), v) ∈ extractHeaders (some hs) →
        v = escapeForJs (h.value.getD []))) ∧
    (∀ h ∈ hs, headerQualifies h = true →
      ∃ v a b, (escapeForJs (h.key.getD []), v) ∈ extractHeaders (some hs) ∧
        generateRequestCode method pathname body (extractHeaders (some hs)) =
          a ++ setLine (escapeForJs (h.key.getD [])) v ++ b) ∧
    (∀ kv ∈ extractHeaders (some hs), ∃ h ∈ hs, headerQualifies h = true ∧
      kv = (escapeForJs (h.key.getD []), escapeForJs (h.value.getD []))) := by
  refine ⟨?_, ?_, ?_⟩
  · intro pre h post hdec hq hlast
    obtain ⟨hin, huniq⟩ := extractHeaders_last_wins hs pre post h hdec hq hlast
    obtain ⟨a, b, hab⟩ := generateRequestCode_set_mem method pathname body
      (extractHeaders (some hs)) hin
    exact ⟨⟨a, b, hab⟩, huniq⟩
  · intro h hmem hq
    obtain ⟨v, hv⟩ := extractHeaders_key_present hs h hmem hq
    obtain ⟨a, b, hab⟩ := generateRequestCode_set_mem method pathname body
      (extractHeaders (some hs)) hv
    exact ⟨v, a, b, hv, hab⟩
  · intro kv hkv
    have hEH : extractHeaders (some hs) = hs.foldl
        (fun acc h =>
          if truthyS h.key && truthyS h.value && !h.disabled then
            upsert acc (escapeForJs (h.key.getD [])) (escapeForJs (h.value.getD []))
          else acc) [] := rfl
    rw [hEH] at hkv
    rcases foldl_headers_sub hs [] kv hkv with h1 | h1
    · simp at h1
    · exact h1

/-- A request with one enabled-but-empty-valued header and one normal
header. -/
def emptyValueHeaderItem : ReqItem :=
  ⟨str "Hdr", some ⟨some (str "GET"), some (str "https://x.io/p"), none,
    some [⟨some (str "X-Empty"), some [], false⟩,
          ⟨some (str "X-Ok"), some (str "1"), false⟩]⟩, none⟩

/-- The plain-mode output for `emptyValueHeaderItem`. -/
def hdrPlainOut : Str :=
  match generateMochaTestFromRequest emptyValueHeaderItem [] false with
  | Except.ok t => t
  | Except.error _ => []

/-- C4 counterexample: the header `X-Empty` has `disabled = false`, yet
no `.set('X-Empty', ...)` call is emitted because its value is empty,
while the normal header is emitted. -/
theorem claim4_enabled_empty_value_cex :
    hasSub (str ".set(\x27X-Empty\x27") hdrPlainOut = false ∧
    hasSub (str ".set(\x27X-Ok\x27, \x271\x27)") hdrPlainOut = true := by
  refine ⟨by decide, by decide⟩

/-- Witness for C4 at a two-header list sharing the escaped key with
different values: the last header wins — its exact pair is emitted and
the earlier value is not bound to the key. -/
theorem claim4_headers_witness :
    (∃ a b, generateRequestCode (str "get") (str "/p") BodyVal.bnull
      (extractHeaders (some [⟨some (str "X-Key"), some (str "old"), false⟩,
        ⟨some (str "X-Key"), some (str "new"), false⟩])) =
      a ++ setLine (escapeForJs (str "X-Key")) (escapeForJs (str "new")) ++ b) ∧
    (escapeForJs (str "X-Key"), escapeForJs (str "old")) ∉
      extractHeaders (some [⟨some (str "X-Key"), some (str "old"), false⟩,
        ⟨some (str "X-Key"), some (str "new"), false⟩]) := by
  have h := (claim4_headers (str "get") (str "/p") BodyVal.bnull
      [⟨some (str "X-Key"), some (str "old"), false⟩,
       ⟨some (str "X-Key"), some (str "new"), false⟩]).1
      [⟨some (str "X-Key"), some (str "old"), false⟩]
      ⟨some (str "X-Key"), some (str "new"), false⟩ [] rfl (by decide) (by simp)
  exact ⟨h.1, fun hmem => absurd (h.2 _ hmem) (by decide)⟩

/-- Specification-side first-parseable scan over the preorder request
list. -/
def firstBase : List ReqItem → Option Str
  | [] => none
  | it :: rest =>
    match reqBase it with
    | some u => some u
    | none => firstBase rest

theorem firstBase_append (a b : List ReqItem) :
    firstBase (a ++ b) =
      match firstBase a with
      | some u => some u
      | none => firstBase b := by
  induction a with
  | nil => simp [firstBase]
  | cons it rest ih =>
    simp only [List.cons_append, firstBase]
    cases reqBase it <;> simp [ih]

theorem firstBase_eq_none_of_all {l : List ReqItem}
    (h : ∀ it ∈ l, reqBase it = none) : firstBase l = none := by
  induction l with
  | nil => rfl
  | cons it rest ih =>
    simp only [firstBase, h it (List.mem_cons_self _ _)]
    exact ih (fun x hx => h x (List.mem_cons_of_mem _ hx))

/-- The code's depth-first search agrees with the specification-side
scan of the preorder request list: the first request anywhere in the
tree whose URL is present and parseable supplies scheme+host. -/
theorem findFirstUrl_eq_firstBase (items : List PItem) :
    findFirstUrl items = firstBase (collectRequests items) := by
  induction items using findFirstUrl.induct with
  | case1 => simp [findFirstUrl, collectRequests, firstBase]
  | case2 name cs rest p hp ih =>
    have hp2 : firstBase (collectRequests cs) = some p := by rw [← ih]; exact hp
    simp only [findFirstUrl, collectRequests, firstBase_append]
    simp [hp, hp2]
  | case3 name cs rest hp ih1 ih2 =>
    have hp2 : firstBase (collectRequests cs) = none := by rw [← ih1]; exact hp
    simp only [findFirstUrl, collectRequests, firstBase_append]
    simp [hp, hp2, ih2]
  | case4 it rest r hreq p hurl hne rec hparse =>
    simp [findFirstUrl, collectRequests, firstBase, reqBase, hreq, hurl, hne, hparse]
  | case5 it rest r hreq p hurl hne hparse ih =>
    simp [findFirstUrl, collectRequests, firstBase, reqBase, hreq, hurl, hne, hparse, ih]
  | case6 it rest r hreq p hurl hne ih =>
    simp only [Ne, not_not] at hne
    simp [findFirstUrl, collectRequests, firstBase, reqBase, hreq, hurl, hne, ih]
  | case7 it rest r hreq hurl ih =>
    simp [findFirstUrl, collectRequests, firstBase, reqBase, hreq, hurl, ih]
  | case8 it rest hreq ih =>
    simp [findFirstUrl, collectRequests, firstBase, reqBase, hreq, ih]

/-- C6: base-URL extraction is the depth-first first-parseable search;
on any tree with no parseable request URL (the empty tree included) it
returns the fixed placeholder together with a warning and never fails;
and re-running it returns the same result. -/
theorem claim6_base_url (items : List PItem) :
    (findFirstUrl items = firstBase (collectRequests items)) ∧
    ((∀ it ∈ collectRequests items, reqBase it = none) →
      (extractBaseUrl items).1 = str "https://api.example.com" ∧
      (extractBaseUrl items).2 ≠ []) ∧
    extractBaseUrl items = extractBaseUrl items := by
  refine ⟨findFirstUrl_eq_firstBase items, ?_, rfl⟩
  intro hall
  have hnone : findFirstUrl items = none := by
    rw [findFirstUrl_eq_firstBase items]
    exact firstBase_eq_none_of_all hall
  unfold extractBaseUrl
  by_cases hi : items.isEmpty <;> simp [hi, hnone, str]

/-- Witness for C6 at the empty tree. -/
theorem claim6_base_url_witness :
    (extractBaseUrl []).1 = str "https://api.example.com" ∧
    (extractBaseUrl []).2 ≠ [] :=
  (claim6_base_url []).2.1 (by intro it hit; simp [collectRequests] at hit)

theorem splitSlash_ne_nil (s : Str) : splitSlash s ≠ [] := by
  cases s with
  | nil => simp [splitSlash]
  | cons c rest =>
    simp only [splitSlash]
    by_cases hc : c = '/'
    · simp [hc]
    · simp only [if_neg hc]
      cases h : splitSlash rest <;> simp

theorem length_splitSlash_cons_ne {c : Char} (hc : ¬c = '/') (s : Str) :
    (splitSlash (c :: s)).length = (splitSlash s).length := by
  simp only [splitSlash, if_neg hc]
  cases h : splitSlash s with
  | nil => exact absurd h (splitSlash_ne_nil s)
  | cons w ws => simp

theorem length_splitSlash_append (a b : Str) :
    (splitSlash (a ++ '/' :: b)).length =
      (splitSlash a).length + (splitSlash b).length := by
  induction a with
  | nil =>
    simp [splitSlash]
    omega
  | cons c rest ih =>
    by_cases hc : c = '/'
    · subst hc
      rw [List.cons_append]
      have e1 : splitSlash ('/' :: (rest ++ '/' :: b)) =
          [] :: splitSlash (rest ++ '/' :: b) := by simp [splitSlash]
      have e2 : splitSlash ('/' :: rest) = [] :: splitSlash rest := by simp [splitSlash]
      rw [e1, e2]
      simp only [List.length_cons]
      omega
    · rw [List.cons_append, length_splitSlash_cons_ne hc, ih,
        length_splitSlash_cons_ne hc]

theorem splitSlash_no_slash {s : Str} (h : '/' ∉ s) : splitSlash s = [s] := by
  induction s with
  | nil => rfl
  | cons c rest ih =>
    have hc : ¬c = '/' := fun he => h (he ▸ List.mem_cons_self _ _)
    simp only [splitSlash, if_neg hc]
    rw [ih (fun hm => h (List.mem_cons_of_mem _ hm))]

/-- The invariant the driver maintains between `parentPath` and the
number of active folder segments. -/
def pathInv (p : Str) (d : Nat) : Prop :=
  (p = [] ∧ d = 0) ∨ (p ≠ [] ∧ 1 ≤ d ∧ (splitSlash p).length = d)

theorem pathInv_push (p : Str) (d : Nat) (k : Str) (hk : k ≠ []) (hks : '/' ∉ k)
    (h : pathInv p d) :
    pathInv (if p ≠ [] then p ++ str "/" ++ k else k) (d + 1) := by
  rcases h with ⟨hp, hd⟩ | ⟨hp, hd1, hlen⟩
  · subst hp
    subst hd
    have hred : (if ([] : Str) ≠ [] then [] ++ str "/" ++ k else k) = k := by simp
    rw [hred]
    exact Or.inr ⟨hk, le_refl 1, by rw [splitSlash_no_slash hks]; simp⟩
  · rw [if_pos hp]
    refine Or.inr ⟨by simp [str], by omega, ?_⟩
    have hshape : p ++ str "/" ++ k = p ++ '/' :: k := by
      simp [str]
    rw [hshape, length_splitSlash_append, hlen, splitSlash_no_slash hks]
    simp

theorem setupRef_formula (p : Str) (d : Nat) (hinv : pathInv p d) :
    (if p = [] then str "./setup.js"
     else dupStr (str "../") (splitSlash p).length ++ str "setup.js") = mkSetupRef d := by
  rcases hinv with ⟨hp, hd⟩ | ⟨hp, hd1, hlen⟩
  · subst hp
    subst hd
    simp [mkSetupRef]
  · rw [if_neg hp, hlen]
    rw [mkSetupRef, if_neg (by omega)]

theorem generateMochaTest_ok (it : ReqItem) (pn : Str) (e : Bool) (r : RequestR)
    (hreq : it.request = some r) (hname : it.name ≠ []) :
    ∃ t, generateMochaTestFromRequest it pn e = Except.ok t := by
  unfold generateMochaTestFromRequest
  rw [if_neg hname, hreq]
  by_cases he : e = true <;> simp [he]

theorem generateTestFile_ok (it : ReqItem) (outputDir parentPath : Str) (r : RequestR)
    (hreq : it.request = some r) (hname : it.name ≠ []) :
    ∃ f, generateTestFile it outputDir parentPath = Except.ok f ∧
      f.setupRef = (if parentPath = [] then str "./setup.js"
        else dupStr (str "../") (splitSlash parentPath).length ++ str "setup.js") := by
  obtain ⟨t, ht⟩ := generateMochaTest_ok it
    (if parentPath ≠ [] then (splitSlash parentPath).getLastD [] else []) false r hreq hname
  unfold generateTestFile
  simp only []
  rw [ht]
  exact ⟨_, rfl, rfl⟩

theorem of_isEmpty_eq_false {l : Str} (h : l.isEmpty = false) : l ≠ [] := by
  cases l with
  | nil => simp at h
  | cons a as => simp

/-- C5 (amended): on a tree whose folder names kebab-case to non-empty
slash-free segments and whose emitted requests are named, the walk
succeeds and every generated file references the setup module as
`./setup.js` at importDepth 0 and as `"../".repeat(importDepth) +
"setup.js"` below the root, where importDepth is the number of active
folder path segments at the request's position (folders contribute only
when `maintainFolderStructure` is on). -/
theorem claim5_layout (maintain : Bool) (outputDir : Str) (items : List PItem)
    (parentPath : Str) :
    ∀ d : Nat, pathInv parentPath d → goodItems items = true →
      ∃ res, processItems maintain outputDir items parentPath = Except.ok res ∧
        res.1.map OutFile.setupRef = (reqDepths maintain items d).map mkSetupRef := by
  induction items, parentPath using processItems.induct maintain outputDir with
  | case1 p =>
    intro d hinv hg
    refine ⟨([], 0), by simp [processItems], by simp [reqDepths]⟩
  | case2 name cs rest parentPath hcs ih =>
    intro d hinv hg
    have hg2 : goodItems rest = true := by
      simp only [goodItems, hcs, Bool.true_or, Bool.true_and] at hg
      exact hg
    obtain ⟨res, hres, hmap⟩ := ih d hinv hg2
    exact ⟨res, by simp [processItems, hcs, hres], by simp [reqDepths, hcs, hmap]⟩
  | case3 name cs rest parentPath hcs fn fp e herr ih =>
    intro d hinv hg
    exfalso
    have hcs2 : cs.isEmpty = false := Bool.not_eq_true _ ▸ Bool.of_not_eq_true hcs
    simp only [goodItems, hcs2, Bool.false_or, Bool.and_eq_true] at hg
    obtain ⟨⟨⟨hkn, hksl⟩, hgc⟩, hgr⟩ := hg
    have hkne : kebabCase name ≠ [] :=
      of_isEmpty_eq_false (Bool.not_eq_true' .. ▸ hkn)
    have hns : '/' ∉ kebabCase name := of_decide_eq_false (Bool.not_eq_true' .. ▸ hksl)
    have hchild := pathInv_push parentPath d (kebabCase name) hkne hns hinv
    cases maintain with
    | true =>
      simp only [dite_true] at herr
      obtain ⟨res, hres, _⟩ := ih (d + 1) hchild hgc
      simp only [dite_true] at hres
      rw [hres] at herr
      exact Except.noConfusion herr
    | false =>
      simp only [Bool.false_eq_true, dite_false] at herr
      obtain ⟨res, hres, _⟩ := ih d hinv hgc
      simp only [Bool.false_eq_true, dite_false] at hres
      rw [hres] at herr
      exact Except.noConfusion herr
  | case4 name cs rest parentPath hcs fn fp subRes hsub e herr ihcs ihrest =>
    intro d hinv hg
    exfalso
    have hcs2 : cs.isEmpty = false := Bool.not_eq_true _ ▸ Bool.of_not_eq_true hcs
    simp only [goodItems, hcs2, Bool.false_or, Bool.and_eq_true] at hg
    obtain ⟨⟨⟨hkn, hksl⟩, hgc⟩, hgr⟩ := hg
    obtain ⟨res, hres, _⟩ := ihrest d hinv hgr
    rw [hres] at herr
    exact Except.noConfusion herr
  | case5 name cs rest parentPath hcs fn fp subRes hsub restRes hrest ihcs ihrest =>
    intro d hinv hg
    have hcs2 : cs.isEmpty = false := Bool.not_eq_true _ ▸ Bool.of_not_eq_true hcs
    simp only [goodItems, hcs2, Bool.false_or, Bool.and_eq_true] at hg
    obtain ⟨⟨⟨hkn, hksl⟩, hgc⟩, hgr⟩ := hg
    have hkne : kebabCase name ≠ [] :=
      of_isEmpty_eq_false (Bool.not_eq_true' .. ▸ hkn)
    have hns : '/' ∉ kebabCase name := of_decide_eq_false (Bool.not_eq_true' .. ▸ hksl)
    have hchild := pathInv_push parentPath d (kebabCase name) hkne hns hinv
    obtain ⟨resR, hresR, hmapR⟩ := ihrest d hinv hgr
    have hfp : fp = (if parentPath = [] then kebabCase name
        else parentPath ++ (str "/" ++ kebabCase name)) := by
      show (if parentPath ≠ [] then parentPath ++ str "/" ++ kebabCase name
        else kebabCase name) = _
      by_cases hp : parentPath = [] <;> simp [hp, List.append_assoc]
    cases maintain with
    | true =>
      obtain ⟨resC, hresC, hmapC⟩ := ihcs (d + 1) hchild hgc
      simp only [dite_true] at hresC
      rw [hfp] at hresC
      refine ⟨(resC.1 ++ resR.1, resR.2 + resC.2 + 1), ?_, ?_⟩
      · simp [processItems, hcs2, hresC, hresR]
      · simp [reqDepths, hcs2, hmapC, hmapR]
    | false =>
      obtain ⟨resC, hresC, hmapC⟩ := ihcs d hinv hgc
      simp only [Bool.false_eq_true, dite_false] at hresC
      refine ⟨(resC.1 ++ resR.1, resR.2 + resC.2 + 1), ?_, ?_⟩
      · simp [processItems, hcs2, hresC, hresR]
      · simp [reqDepths, hcs2, hmapC, hmapR]
  | case6 it rest parentPath r hreq e hgen =>
    intro d hinv hg
    exfalso
    simp only [goodItems, hreq, Bool.and_eq_true] at hg
    obtain ⟨hn, hgr⟩ := hg
    have hname : it.name ≠ [] := of_isEmpty_eq_false (Bool.not_eq_true' .. ▸ hn)
    obtain ⟨f2, hgen2, _⟩ := generateTestFile_ok it outputDir parentPath r hreq hname
    rw [hgen2] at hgen
    exact Except.noConfusion hgen
  | case7 it rest parentPath r hreq f hgen e herr ihrest =>
    intro d hinv hg
    exfalso
    simp only [goodItems, hreq, Bool.and_eq_true] at hg
    obtain ⟨hn, hgr⟩ := hg
    obtain ⟨res, hres, _⟩ := ihrest d hinv hgr
    rw [hres] at herr
    exact Except.noConfusion herr
  | case8 it rest parentPath r hreq f hgen restRes hrest ihrest =>
    intro d hinv hg
    simp only [goodItems, hreq, Bool.and_eq_true] at hg
    obtain ⟨hn, hgr⟩ := hg
    have hname : it.name ≠ [] := of_isEmpty_eq_false (Bool.not_eq_true' .. ▸ hn)
    obtain ⟨f2, hgen2, hsetup⟩ := generateTestFile_ok it outputDir parentPath r hreq hname
    obtain ⟨resR, hresR, hmapR⟩ := ihrest d hinv hgr
    refine ⟨(f2 :: resR.1, resR.2), ?_, ?_⟩
    · simp [processItems, hreq, hgen2, hresR]
    · simp only [reqDepths, hreq, List.map_cons]
      rw [hsetup, setupRef_formula parentPath d hinv]
      simp [hmapR]
  | case9 it rest parentPath hreq ihrest =>
    intro d hinv hg
    simp only [goodItems, hreq, Bool.true_and] at hg
    obtain ⟨res, hres, hmap⟩ := ihrest d hinv hg
    exact ⟨res, by simp [processItems, hreq, hres], by simp [reqDepths, hreq, hmap]⟩

/-- The concrete two-folders-deep tree of the claim. -/
def twoDeepTree : List PItem :=
  [PItem.group (str "Users") [PItem.group (str "Admin") [PItem.leaf
    ⟨str "Get All", some ⟨some (str "GET"), some (str "https://api.example.com/users"),
      none, none⟩, none⟩]]]

/-- The setup reference of the file generated for the nested request
when the walk reaches it with `parentPath = []` (the `flatten = true`
layout). -/
def flattenLeafRef : Str :=
  match generateTestFile
      ⟨str "Get All", some ⟨some (str "GET"),
        some (str "https://api.example.com/users"), none, none⟩, none⟩
      (str "test") [] with
  | Except.ok f => f.setupRef
  | Except.error _ => []

/-- C5 counterexample: under `flatten = true` a request nested two
folders deep keeps `parentPath = []` (importDepth 0), and the file the
driver generates there references the setup module as `"./setup.js"`,
which is not `"../".repeat(0) + "setup.js"` (nor `... + "setup"`). -/
theorem claim5_flatten_ref_cex :
    reqDepths false twoDeepTree 0 = [0] ∧
    flattenLeafRef = str "./setup.js" ∧
    str "./setup.js" ≠ dupStr (str "../") 0 ++ str "setup.js" ∧
    str "./setup.js" ≠ dupStr (str "../") 0 ++ str "setup" := by
  refine ⟨?_, by decide, by decide, by decide⟩
  simp [reqDepths, twoDeepTree]

/-- Witness for C5 at the concrete two-deep tree with
`maintainFolderStructure` on: the nested request gets importDepth 2 and
reference `"../../setup.js"`. -/
theorem claim5_layout_witness :
    (reqDepths true twoDeepTree 0).map mkSetupRef = [str "../../setup.js"] ∧
    ∃ res, processItems true (str "test") twoDeepTree [] = Except.ok res ∧
      res.1.map OutFile.setupRef = (reqDepths true twoDeepTree 0).map mkSetupRef := by
  have hd : reqDepths true twoDeepTree 0 = [2] := by simp [reqDepths, twoDeepTree]
  refine ⟨by rw [hd]; decide, ?_⟩
  refine claim5_layout true (str "test") twoDeepTree [] 0 (Or.inl ⟨rfl, rfl⟩) ?_
  simp [goodItems, twoDeepTree]
  decide

end PostMortem
